import Mathlib

/-!
Verification development for the link-tools checker engine (src/checker.py,
src/app.py).

Modelling conventions (shallow embedding):
* Python strings are Lean `String` (a structure over `List Char`); most work
  happens on `List Char`.  Python `str.strip()` is modelled on the ASCII
  whitespace characters, `str.lower()` as `Char.toLower` per character.
* The network / HTML layer (`requests.get`, `BeautifulSoup`, `urljoin`) is
  abstracted: a fetched page is the list of `(resolved absolute URL, visible
  anchor text)` pairs of its `<a href>` elements in document order, and a fetch
  is an `Except String page` (`Except.error msg` models a raised exception with
  `str(e) = msg`).  `get_text(strip=True)` is modelled as whitespace stripping.
* `urllib.parse.urlparse` is modelled by `pySchemeSplit` / `pyNetloc` /
  `pyHostname` below, following CPython's `urlsplit`.  `urldefrag` is modelled
  as truncation at the first `'#'`; on the inputs `normalize_url` feeds it
  (strings starting with `http://` or `https://`) the reassembly performed by
  CPython's `urldefrag` reproduces exactly that truncation up to the final key.
  The `ValueError` CPython raises on netlocs with unbalanced square brackets is
  not modelled; all modelled functions are total.
* Thread-pool concurrency is modelled by quantifying over the completion order:
  `as_completed` may deliver the dispatched units in any permutation of the
  submitted ones, so theorems take the completion order as a parameter
  constrained only to be such a permutation.
-/

namespace LinkTools

/-! ### Python string primitives -/

/-- ASCII whitespace as stripped by Python's `str.strip()`. -/
def isPyWs (c : Char) : Bool :=
  c == ' ' || c == '\t' || c == '\n' || c == '\r' || c == '\x0b' || c == '\x0c'

/-- Model of `str.strip()`. -/
def pyStrip (l : List Char) : List Char :=
  ((l.dropWhile isPyWs).reverse.dropWhile isPyWs).reverse

/-- Model of `str.lower()` (per-character lowering). -/
def lowerAll (l : List Char) : List Char := l.map Char.toLower

/-- Longest initial segment on which `stop` is false. -/
def takeUntil (stop : Char → Bool) (l : List Char) : List Char :=
  l.takeWhile (fun c => !stop c)

/-- Remainder after `takeUntil` (starts with the first stopping char). -/
def dropUntil (stop : Char → Bool) (l : List Char) : List Char :=
  l.dropWhile (fun c => !stop c)

/-- Suffix after the last occurrence of `sep` (the whole list if absent). -/
def afterLast (sep : Char) (l : List Char) : List Char :=
  (l.reverse.takeWhile (fun c => c != sep)).reverse

/-- Remove every trailing occurrence of `c` (Python `str.rstrip(c)`). -/
def rstripAll (c : Char) (l : List Char) : List Char :=
  (l.reverse.dropWhile (fun d => d == c)).reverse

/-- Model of `str.replace('www.', '')`: delete every (non-overlapping,
left-to-right) occurrence of the four characters `www.`. -/
def removeWww : List Char → List Char
  | 'w' :: 'w' :: 'w' :: '.' :: rest => removeWww rest
  | c :: rest => c :: removeWww rest
  | [] => []

/-- String-level wrapper of `pyStrip`. -/
def pyStripS (s : String) : String := ⟨pyStrip s.data⟩

/-- String-level wrapper of `lowerAll`. -/
def lowerS (s : String) : String := ⟨lowerAll s.data⟩

/-- Model of Python slicing `s[:n]`. -/
def strTake (n : Nat) (s : String) : String := ⟨s.data.take n⟩

instance {ε α : Type} [DecidableEq ε] [DecidableEq α] : DecidableEq (Except ε α) :=
  fun a b =>
  match a, b with
  | Except.ok x, Except.ok y =>
    match decEq x y with
    | isTrue h => isTrue (h ▸ rfl)
    | isFalse h => isFalse (fun hc => h (Except.ok.inj hc))
  | Except.error x, Except.error y =>
    match decEq x y with
    | isTrue h => isTrue (h ▸ rfl)
    | isFalse h => isFalse (fun hc => h (Except.error.inj hc))
  | Except.ok _, Except.error _ => isFalse (fun hc => Except.noConfusion hc)
  | Except.error _, Except.ok _ => isFalse (fun hc => Except.noConfusion hc)

/-! ### Sorting

Python's `list.sort(key=...)` is a stable comparison sort; it is modelled by a
structurally recursive insertion sort so that concrete runs reduce in the
kernel.  The published-order claims only use that the output is a permutation
of the input and pairwise ordered, which any correct model of `list.sort`
satisfies. -/

/-- Insert `a` before the first element `b` with `le a b`. -/
def insertLe {α : Type} (le : α → α → Bool) (a : α) : List α → List α
  | [] => [a]
  | b :: bs => if le a b then a :: b :: bs else b :: insertLe le a bs

/-- Insertion sort with a boolean comparison. -/
def sortLe {α : Type} (le : α → α → Bool) (l : List α) : List α :=
  l.foldr (insertLe le) []

/-! ### urllib.parse model -/

/-- Characters permitted in a URL scheme after the leading letter. -/
def isSchemeChar (c : Char) : Bool :=
  c.isAlpha || c.isDigit || c == '+' || c == '-' || c == '.'

/-- Model of the scheme split in CPython's `urlsplit`: if a `':'` occurs at a
positive index and everything before it is a letter followed by scheme
characters, split off the (lowercased) scheme. -/
def pySchemeSplit (l : List Char) : List Char × List Char :=
  let pre := takeUntil (fun c => c == ':') l
  if pre.length < l.length && !pre.isEmpty &&
      (match pre with | c :: _ => c.isAlpha | [] => false) && pre.all isSchemeChar then
    (lowerAll pre, l.drop (pre.length + 1))
  else ([], l)

/-- Characters ending the netloc in `urlsplit`. -/
def netlocStop (c : Char) : Bool := c == '/' || c == '?' || c == '#'

/-- Model of `urlparse(url).netloc`: after the optional scheme, a netloc is
present only when the remainder starts with `//`, and extends to the next
`/`, `?` or `#`. -/
def pyNetloc (l : List Char) : List Char :=
  let rest := (pySchemeSplit l).2
  if ['/', '/'].isPrefixOf rest then
    takeUntil netlocStop (rest.drop 2)
  else []

/-- CPython's `urlsplit` bracket validation: a netloc containing `'['` without
`']'`, or `']'` without `'['`, makes it raise `ValueError("Invalid IPv6 URL")`.
(Recent CPython additionally validates the contents of balanced-bracket hosts;
the theorems below only ever use bracket-free or unbalanced-bracket netlocs,
on which every supported version behaves identically.) -/
def invalidNetloc (netloc : List Char) : Bool :=
  (netloc.any (fun c => c == '[') && !netloc.any (fun c => c == ']')) ||
  (netloc.any (fun c => c == ']') && !netloc.any (fun c => c == '['))

/-- Whether `urlparse` raises `ValueError` on this URL: a netloc is extracted
only after `//`, and the parse raises exactly when that netloc has unbalanced
square brackets. -/
def pyNetlocRaises (l : List Char) : Bool :=
  let rest := (pySchemeSplit l).2
  if ['/', '/'].isPrefixOf rest then
    invalidNetloc (takeUntil netlocStop (rest.drop 2))
  else false

/-- Model of `urlparse`'s `_splitparams` step for http(s) URLs: `parsed.path`
excludes the `;parameters` of the LAST path segment (a `';'` at or after the
last `'/'`; the first `';'` anywhere when the path has no `'/'`).
`normalize_url` never reads `parsed.params`, so the split part is dropped. -/
def pySplitParams (url : List Char) : List Char :=
  if url.any (fun c => c == ';') then
    if url.any (fun c => c == '/') then
      let tailSeg := afterLast '/' url
      if tailSeg.any (fun c => c == ';') then
        url.take (url.length - tailSeg.length) ++ takeUntil (fun c => c == ';') tailSeg
      else url
    else takeUntil (fun c => c == ';') url
  else url

/-- Model of `parsed.hostname` (with `or ''` applied): drop userinfo up to the
last `'@'`, then either the bracketed host or everything before the first
`':'`, lowercased. -/
def pyHostname (netloc : List Char) : List Char :=
  let hostinfo := afterLast '@' netloc
  let h := if hostinfo.any (fun c => c == '[') then
      takeUntil (fun c => c == ']') ((dropUntil (fun c => c == '[') hostinfo).drop 1)
    else takeUntil (fun c => c == ':') hostinfo
  lowerAll h

/-- The characters of `"http://"`. -/
def httpPre : List Char := ['h', 't', 't', 'p', ':', '/', '/']

/-- The characters of `"https://"`. -/
def httpsPre : List Char := ['h', 't', 't', 'p', 's', ':', '/', '/']

/-- The characters of `"www."`. -/
def wwwPre : List Char := ['w', 'w', 'w', '.']

/-- Drop a leading `www.` (the `host[4:]` branch of `normalize_url`). -/
def wwwDrop (h : List Char) : List Char :=
  if wwwPre.isPrefixOf h then h.drop 4 else h

/-- The value `checker.normalize_url` computes when `urlparse` does not raise.
Steps mirror the source: strip+lower, ensure an `http(s)://` scheme,
defragment, parse (path excludes `;params` of the last segment, query taken
before the params split), `hostname or ''`, drop a leading `www.`,
`path.rstrip('/')`, reassemble with the query appended only when non-empty.
After the scheme-ensuring step the string always starts with `http://` or
`https://`, which the parse step here exploits exactly as `urlparse` behaves
on such strings. -/
def normalize_urlChars (l : List Char) : List Char :=
  let u0 := lowerAll (pyStrip l)
  let u1 := if httpPre.isPrefixOf u0 || httpsPre.isPrefixOf u0 then u0 else httpsPre ++ u0
  let u2 := takeUntil (fun c => c == '#') u1
  let isHttps := httpsPre.isPrefixOf u2
  let rest := u2.drop (if isHttps then 8 else 7)
  let netloc := takeUntil netlocStop rest
  let after := rest.drop netloc.length
  let rawPath := takeUntil (fun c => c == '?') after
  let query := after.drop (rawPath.length + 1)
  let path := pySplitParams rawPath
  let host := wwwDrop (pyHostname netloc)
  (if isHttps then ['h', 't', 't', 'p', 's'] else ['h', 't', 't', 'p']) ++
    [':', '/', '/'] ++ host ++ rstripAll '/' path ++
    (if query.isEmpty then [] else '?' :: query)

/-- The netloc inspected by `normalize_url`'s parse (the same extraction as in
`normalize_urlChars`; the source computes it once — the model factors the pure
value and the raise condition over the shared extraction).  Both `urldefrag`
and `urlparse` inside `normalize_url` see this netloc: `'#'` terminates the
netloc scan, so defragmenting first does not change it. -/
def normNetloc (l : List Char) : List Char :=
  let u0 := lowerAll (pyStrip l)
  let u1 := if httpPre.isPrefixOf u0 || httpsPre.isPrefixOf u0 then u0 else httpsPre ++ u0
  let u2 := takeUntil (fun c => c == '#') u1
  takeUntil netlocStop (u2.drop (if httpsPre.isPrefixOf u2 then 8 else 7))

/-- Whether `checker.normalize_url` raises: exactly when the netloc it parses
has unbalanced square brackets. -/
def normalize_urlRaises (l : List Char) : Bool := invalidNetloc (normNetloc l)

/-- Model of `checker.normalize_url`: the key, or the `ValueError` message
`urlparse` raises on an unbalanced-bracket authority. -/
def normalize_url (s : String) : Except String String :=
  if normalize_urlRaises s.data then Except.error "Invalid IPv6 URL"
  else Except.ok ⟨normalize_urlChars s.data⟩

/-- The key `normalize_url` yields on non-raising inputs, as a total function
(used by the specification-side classification, whose hypotheses rule the
raising inputs out). -/
def normalize_key (s : String) : String := ⟨normalize_urlChars s.data⟩

/-- The value `checker.get_domain` computes when `urlparse` does not raise:
`netloc.replace('www.', '').lower()`.  Note the source uses `netloc` (not
`hostname`) and `replace` (every occurrence, case-sensitively, before
lowering). -/
def link_domainOf (s : String) : String := ⟨lowerAll (removeWww (pyNetloc s.data))⟩

/-- Model of `checker.get_domain`: the bare domain, or the `ValueError` raised
by `urlparse` on an unbalanced-bracket netloc. -/
def get_domain (s : String) : Except String String :=
  if pyNetlocRaises s.data then Except.error "Invalid IPv6 URL"
  else Except.ok (link_domainOf s)

/-- String-level wrapper of `removeWww`, for stating target-domain cleaning
(`td.replace('www.', '')`). -/
def removeWwwS (s : String) : String := ⟨removeWww s.data⟩

/-! ### Link check engine -/

/-- One expected-link input row (`{row_num, site, link, anchor}`), as built by
`api_link_check_start` in src/app.py. -/
structure Row where
  row_num : Nat
  site : String
  link : String
  anchor : String
deriving DecidableEq, Repr

/-- One extracted page link, as produced by `fetch_page_links`. -/
structure ExtractedLink where
  url : String
  normalized_url : String
  anchor : String
deriving DecidableEq, Repr

/-- One per-row link-check result record. -/
structure LinkResult where
  row_num : Nat
  site : String
  expected_link : String
  expected_anchor : String
  status : String
  found_anchors : List String
  error : Option String
deriving DecidableEq, Repr

/-- A fetched page, abstracting the HTTP/HTML layer: the `(resolved absolute
URL, visible text)` pairs of its anchor elements in document order. -/
abbrev Page := List (String × String)

/-- Model of `fetch_page_links` minus the network call: per anchor element in
document order, record the resolved URL, its normalized key, and the stripped
visible text.  `normalize_url` raising on an anchor's URL aborts the whole
call with that exception, exactly as the source's per-anchor loop does. -/
def fetch_page_links : Page → Except String (List ExtractedLink)
  | [] => Except.ok []
  | pr :: rest =>
    match normalize_url pr.1 with
    | Except.error e => Except.error e
    | Except.ok norm =>
      match fetch_page_links rest with
      | Except.error e => Except.error e
      | Except.ok links =>
        Except.ok ({ url := pr.1, normalized_url := norm, anchor := pyStripS pr.2 } :: links)

/-- The extracted links of a page none of whose anchor URLs make the parse
raise (the value `fetch_page_links` then returns). -/
def page_links_ok (page : Page) : List ExtractedLink :=
  page.map fun pr => { url := pr.1, normalized_url := normalize_key pr.1, anchor := pyStripS pr.2 }

/-- Append `a` under key `k` in an insertion-ordered association list; models
`dict.setdefault(k, []).append(a)` (and the `if norm not in ...` idiom). -/
def addAnchor : List (String × List String) → String → String → List (String × List String)
  | [], k, a => [(k, [a])]
  | (k', as') :: rest, k, a =>
    if k' = k then (k', as' ++ [a]) :: rest else (k', as') :: addAnchor rest k a

/-- Association-list lookup, modelling `dict` membership/access. -/
def lookupAnchors : List (String × List String) → String → Option (List String)
  | [], _ => none
  | (k', as') :: rest, k => if k' = k then some as' else lookupAnchors rest k

/-- Build the key-to-anchors mapping from `(key, anchor)` pairs in order. -/
def buildAnchorMap (prs : List (String × String)) : List (String × List String) :=
  prs.foldl (fun m pr => addAnchor m pr.1 pr.2) []

/-- The `fetch_error` record the `except` handler of `_check_single_site`
appends for one expected row (`str(e)[:200]` attached). -/
def fetchErrorRow (site_url : String) (e : String) (expected : Row) : LinkResult :=
  { row_num := expected.row_num, site := site_url, expected_link := expected.link,
    expected_anchor := pyStripS expected.anchor, status := "fetch_error",
    found_anchors := [], error := some (strTake 200 e) }

/-- One classified row of the success loop of `_check_single_site`, given the
normalized key of its expected link. -/
def classifyRow (site_url : String) (url_to_anchors : List (String × List String))
    (expected : Row) (expected_url_norm : String) : LinkResult :=
  let expected_anchor := pyStripS expected.anchor
  match lookupAnchors url_to_anchors expected_url_norm with
  | some found_anchors =>
    let status :=
      if expected_anchor = "" then "ok"
      else if (found_anchors.map lowerS).contains (lowerS expected_anchor) then "ok"
      else "anchor_mismatch"
    { row_num := expected.row_num, site := site_url, expected_link := expected.link,
      expected_anchor := expected_anchor, status := status,
      found_anchors := found_anchors, error := none }
  | none =>
    { row_num := expected.row_num, site := site_url, expected_link := expected.link,
      expected_anchor := expected_anchor, status := "link_not_found",
      found_anchors := [], error := none }

/-- The classification loop of `_check_single_site`: rows are classified and
appended one at a time; when `normalize_url` raises on some row's expected
link, the rows already appended are kept and the exception is reported. -/
def classifyRows (site_url : String) (url_to_anchors : List (String × List String)) :
    List Row → List LinkResult × Option String
  | [] => ([], none)
  | expected :: rest =>
    match normalize_url expected.link with
    | Except.error e => ([], some e)
    | Except.ok key =>
      let r := classifyRow site_url url_to_anchors expected key
      let (rs, err) := classifyRows site_url url_to_anchors rest
      (r :: rs, err)

/-- Model of `_check_single_site`: classify every expected row of one site
against one fetch outcome.  The whole body runs inside one `try`: a failing
fetch, a raising anchor URL on the fetched page, or a raising expected link
mid-loop all reach the `except` handler, which appends a `fetch_error` row for
EVERY expected row — after whatever classified rows were already appended. -/
def _check_single_site (site_url : String) (expected_links : List Row)
    (fetch : Except String Page) : List LinkResult :=
  match (match fetch with
         | Except.error e => Except.error e
         | Except.ok page => fetch_page_links page) with
  | Except.error e => expected_links.map (fetchErrorRow site_url e)
  | Except.ok page_links =>
    let url_to_anchors :=
      buildAnchorMap (page_links.map fun l => (l.normalized_url, l.anchor))
    match classifyRows site_url url_to_anchors expected_links with
    | (rs, none) => rs
    | (rs, some e) => rs ++ expected_links.map (fetchErrorRow site_url e)

/-- Append a row to its site's group (insertion-ordered), modelling the
`site_groups` dict building in `run_link_check`. -/
def addRow : List (String × List Row) → String → Row → List (String × List Row)
  | [], s, r => [(s, [r])]
  | (s', rs) :: rest, s, r =>
    if s' = s then (s', rs ++ [r]) :: rest else (s', rs) :: addRow rest s r

/-- Model of the `site_groups` dict: rows grouped by stripped site, groups in
first-occurrence order. -/
def site_groups (rows : List Row) : List (String × List Row) :=
  rows.foldl (fun gs row => addRow gs (pyStripS row.site) row) []

/-- Concatenate per-site results in the given (completion) order, modelling the
`as_completed` accumulation into `all_results`. -/
def gatherLink (groups : List (String × List Row)) (fetch : String → Except String Page) :
    List LinkResult :=
  groups.flatMap fun g => _check_single_site g.1 g.2 (fetch g.1)

/-- Comparison used by `all_results.sort(key=lambda r: r['row_num'])`. -/
def rowLe (a b : LinkResult) : Bool := a.row_num ≤ b.row_num

/-- Model of `run_link_check`'s published result list: the per-site results in
fetch-completion order (`completed`, a permutation of `site_groups rows` in the
theorems), sorted by `row_num`.  `rows` is the submitted input; the fetch
outcome of each site is given by `fetch`. -/
def run_link_check (rows : List Row) (fetch : String → Except String Page)
    (completed : List (String × List Row)) : List LinkResult :=
  sortLe rowLe (gatherLink completed fetch)

/-! ### Domain check engine -/

/-- Per-target outcome inside a `DomainCheckResult`. -/
structure TargetInfo where
  found : Bool
  anchors : List String
deriving DecidableEq, Repr

/-- One per-domain result record. -/
structure DomainResult where
  domain : String
  status : String
  error : Option String
  links_count : Nat
  targets : List (String × TargetInfo)
deriving DecidableEq, Repr

/-- Visible text of an anchor as used by `_check_single_domain`:
`a.get_text(strip=True) or '[no anchor]'`. -/
def anchorText (t : String) : String :=
  if pyStripS t = "" then "[no anchor]" else pyStripS t

/-- Model of the initial `result['targets']` dict: one `{found: False,
anchors: []}` entry per distinct target, in first-occurrence order. -/
def initTargets (target_domains : List String) : List (String × TargetInfo) :=
  target_domains.foldl
    (fun m td => if (m.map Prod.fst).contains td then m else m ++ [(td, ⟨false, []⟩)]) []

/-- The external-link pairs `(link_domain, anchor)` the anchor loop of
`_check_single_domain` collects when no anchor URL makes the parse raise:
keep anchors whose resolved URL has scheme http or https and whose domain is
non-empty and differs from `source_domain`. -/
def externalPairs (source_domain : String) (page : Page) : List (String × String) :=
  page.filterMap fun pr =>
    if (pySchemeSplit pr.1.data).1 == ['h', 't', 't', 'p'] ||
        (pySchemeSplit pr.1.data).1 == ['h', 't', 't', 'p', 's'] then
      let link_domain := link_domainOf pr.1
      if link_domain == "" || link_domain == source_domain then none
      else some (link_domain, anchorText pr.2)
    else none

/-- The anchor loop of `_check_single_domain`, anchors in document order: each
anchor's resolved URL is parsed (`urlparse(full_url)` for the scheme check,
then `get_domain`); an unbalanced-bracket authority raises out of the loop,
which the enclosing `try` turns into a unit-level error. -/
def collectExternal (source_domain : String) : Page → Except String (List (String × String))
  | [] => Except.ok []
  | pr :: rest =>
    if pyNetlocRaises pr.1.data then Except.error "Invalid IPv6 URL"
    else
      let keep :=
        if (pySchemeSplit pr.1.data).1 == ['h', 't', 't', 'p'] ||
            (pySchemeSplit pr.1.data).1 == ['h', 't', 't', 'p', 's'] then
          let link_domain := link_domainOf pr.1
          if link_domain == "" || link_domain == source_domain then none
          else some (link_domain, anchorText pr.2)
        else none
      match collectExternal source_domain rest with
      | Except.error e => Except.error e
      | Except.ok prs =>
        Except.ok (match keep with | some x => x :: prs | none => prs)

/-- The error record `_check_single_domain`'s `except` handler produces. -/
def domainErrorResult (domain : String) (target_domains : List String) (e : String) :
    DomainResult :=
  { domain := domain, status := "error", error := some (strTake 200 e),
    links_count := 0, targets := initTargets target_domains }

/-- Model of `_check_single_domain`: fetch one homepage (abstracted as the
fetch outcome of `https://{domain}/`), compute the source domain, count and
group the external links, and mark the targets found in the grouping.  The
whole body runs inside one `try`: a failing fetch, a raising `get_domain` on
the submitted domain, or a raising parse of any anchor URL all yield the
unit-level error record.  The final per-target loop writes the same value for
duplicate targets, so it is modelled as a map over the deduplicated target
dict. -/
def _check_single_domain (domain : String) (target_domains : List String)
    (fetch : Except String Page) : DomainResult :=
  match fetch with
  | Except.error e => domainErrorResult domain target_domains e
  | Except.ok page =>
    match get_domain ("https://" ++ domain ++ "/") with
    | Except.error e => domainErrorResult domain target_domains e
    | Except.ok source_domain =>
      match collectExternal source_domain page with
      | Except.error e => domainErrorResult domain target_domains e
      | Except.ok pairs =>
        let domain_anchors := buildAnchorMap pairs
        let targets := (initTargets target_domains).map fun t =>
          let td_clean := lowerS (removeWwwS t.1)
          match lookupAnchors domain_anchors td_clean with
          | some as' => (t.1, TargetInfo.mk true as')
          | none => t
        { domain := domain, status := "ok", error := none,
          links_count := pairs.length, targets := targets }

/-- Code-point lexicographic order on character lists; Python's `str` order,
used by `all_results.sort(key=lambda r: r['domain'])`. -/
def lexLe : List Char → List Char → Bool
  | [], _ => true
  | _ :: _, [] => false
  | a :: as', b :: bs => if a = b then lexLe as' bs else decide (a < b)

/-- Comparison used to sort domain results. -/
def domLe (a b : DomainResult) : Bool := lexLe a.domain.data b.domain.data

/-- Model of `run_domain_check`'s published result list: one unit per submitted
domain (duplicates included — the futures dict is keyed by future object), in
completion order `completed` (a permutation of `domains` in the theorems),
sorted by domain. -/
def run_domain_check (domains target_domains : List String)
    (fetch : String → Except String Page) (completed : List String) : List DomainResult :=
  sortLe domLe (completed.map fun d => _check_single_domain d target_domains (fetch d))

/-! ### Job status and submission (src/app.py and the guarded resets) -/

/-- The `link_check_status` snapshot.  Log entries carry wall-clock timestamps
in the source; they are abstracted to opaque strings here. -/
structure LinkCheckStatus where
  running : Bool
  total : Nat
  checked : Nat
  total_sites : Nat
  checked_sites : Nat
  results : List LinkResult
  counts : List (String × Nat)
  log : List String
deriving DecidableEq, Repr

/-- The `domain_check_status` snapshot. -/
structure DomainCheckStatus where
  running : Bool
  total : Nat
  checked : Nat
  results : List DomainResult
  counts : List (String × Nat)
  log : List String
deriving DecidableEq, Repr

/-- Outcome of a submission endpoint. -/
inductive SubmitOutcome where
  | accepted (count : Nat)
  | rejectedEmpty
  | rejectedRunning
deriving DecidableEq, Repr

/-- The state written by `run_link_check` under `_lc_lock` when a run starts
(lines 139-147 of src/checker.py). -/
def link_check_reset (rows : List Row) : LinkCheckStatus :=
  { running := true, total := rows.length, checked := 0,
    total_sites := (site_groups rows).length, checked_sites := 0,
    results := [], counts := [], log := [] }

/-- Model of the `api_link_check_start` endpoint (src/app.py): reject on empty
input, reject while a link-check run is in flight, otherwise start the run
(whose immediately observable effect on the status is `link_check_reset`). -/
def api_link_check_start (rows : List Row) (st : LinkCheckStatus) :
    SubmitOutcome × LinkCheckStatus :=
  if rows.isEmpty then (SubmitOutcome.rejectedEmpty, st)
  else if st.running then (SubmitOutcome.rejectedRunning, st)
  else (SubmitOutcome.accepted rows.length, link_check_reset rows)

/-- Model of the submission guard at the top of `run_domain_check` (under
`_dc_lock`): return `False` leaving the state untouched when a run is in
flight, else reset the status for the new run and return `True`. -/
def run_domain_check_submit (domains : List String) (st : DomainCheckStatus) :
    Bool × DomainCheckStatus :=
  if st.running then (false, st)
  else (true, { running := true, total := domains.length, checked := 0,
                results := [], counts := [], log := [] })

/-- Model of the `api_domain_check_start` endpoint (src/app.py): reject on
empty domains, reject while running, else submit. -/
def api_domain_check_start (domains : List String) (st : DomainCheckStatus) :
    SubmitOutcome × DomainCheckStatus :=
  if domains.isEmpty then (SubmitOutcome.rejectedEmpty, st)
  else if st.running then (SubmitOutcome.rejectedRunning, st)
  else (SubmitOutcome.accepted domains.length, (run_domain_check_submit domains st).2)

/-! ### Specification-side definitions

These definitions are written from the words of the specification / claims (not
from the source); the classification and refinement theorems below compare the
source-modelled functions against them. -/

/-- Anchors recorded under key `k` among `(key, anchor)` pairs, in page order:
the specification's "ordered list of anchor texts found under that key". -/
def anchorsFor (prs : List (String × String)) (k : String) : List String :=
  (prs.filter (fun pr => pr.1 == k)).map Prod.snd

/-- All rows of a group list, groups in order. -/
def joinGroups (gs : List (String × List Row)) : List Row := gs.flatMap Prod.snd

/-- The `(normalized key, anchor)` pairs of a fetched page none of whose
anchor URLs makes `normalize_url` raise. -/
def pageKeyPairs (page : Page) : List (String × String) :=
  (page_links_ok page).map fun l => (l.normalized_url, l.anchor)

/-- The claim's per-row classification for a successfully fetched site:
normalize the expected link; if the key occurs on the page, `ok` exactly when
the expected anchor is empty or case-insensitively equals one of the found
anchors, else `anchor_mismatch`, with `found_anchors` the anchors under that
key; if the key is absent, `link_not_found` with no found anchors. -/
def linkRowSpec (site_url : String) (page : Page) (expected : Row) : LinkResult :=
  let k := normalize_key expected.link
  let ea := pyStripS expected.anchor
  if (pageKeyPairs page).any (fun pr => pr.1 == k) then
    let fa := anchorsFor (pageKeyPairs page) k
    { row_num := expected.row_num, site := site_url, expected_link := expected.link,
      expected_anchor := ea,
      status := if ea = "" ∨ (fa.map lowerS).contains (lowerS ea) then "ok" else "anchor_mismatch",
      found_anchors := fa, error := none }
  else
    { row_num := expected.row_num, site := site_url, expected_link := expected.link,
      expected_anchor := ea, status := "link_not_found", found_anchors := [], error := none }

/-- The claim's qualification test for a domain-check anchor: the resolved URL
has scheme `http` or `https` and a non-empty domain different from the source
domain. -/
def qualifiesExternal (source_domain : String) (pr : String × String) : Bool :=
  ((pySchemeSplit pr.1.data).1 == ['h', 't', 't', 'p'] ||
      (pySchemeSplit pr.1.data).1 == ['h', 't', 't', 'p', 's']) &&
    !(link_domainOf pr.1 == "") && !(link_domainOf pr.1 == source_domain)

/-- The claim's per-target outcome: `found` with the accumulated anchor list of
the target's bare-host group when that group is non-empty, else not found. -/
def domainTargetSpec (source_domain : String) (page : Page) (td : String) :
    String × TargetInfo :=
  let td_clean := lowerS (removeWwwS td)
  let as' := ((page.filter (qualifiesExternal source_domain)).filter
      (fun pr => link_domainOf pr.1 == td_clean)).map (fun pr => anchorText pr.2)
  if as'.isEmpty then (td, ⟨false, []⟩) else (td, ⟨true, as'⟩)

/-- Whitespace-free, lowercase-stable characters (stable under the strip+lower
preprocessing of `normalize_url`). -/
def CleanSeg (l : List Char) : Prop := ∀ c ∈ l, isPyWs c = false ∧ c.toLower = c

/-- Characters that may appear in a plain host: no netloc terminator and none
of the userinfo / port / bracket markers. -/
def HostSeg (l : List Char) : Prop :=
  ∀ c ∈ l, netlocStop c = false ∧ c ≠ '@' ∧ c ≠ ':' ∧ c ≠ '['

/-- Strip at most a single trailing occurrence of `c` (the claim's reading of
the trailing-slash step in C8). -/
def rstripOne (c : Char) (l : List Char) : List Char :=
  if l.getLast? = some c then l.dropLast else l

/-- The C8 claim taken literally: lowercase the whole string (no whitespace
stripping mentioned), ensure a scheme, strip the fragment, parse, drop a
leading `www.`, strip a SINGLE trailing slash, reassemble. -/
def normalize_url_claimed (s : String) : String :=
  let u0 := lowerAll s.data
  let u1 := if httpPre.isPrefixOf u0 || httpsPre.isPrefixOf u0 then u0 else httpsPre ++ u0
  let u2 := takeUntil (fun c => c == '#') u1
  let isHttps := httpsPre.isPrefixOf u2
  let rest := u2.drop (if isHttps then 8 else 7)
  let netloc := takeUntil netlocStop rest
  let after := rest.drop netloc.length
  let path := takeUntil (fun c => c == '?') after
  let query := after.drop (path.length + 1)
  let host := wwwDrop (pyHostname netloc)
  ⟨(if isHttps then ['h', 't', 't', 'p', 's'] else ['h', 't', 't', 'p']) ++
    [':', '/', '/'] ++ host ++ rstripOne '/' path ++
    (if query.isEmpty then [] else '?' :: query)⟩

/-- Parsed components of a defragmented, scheme-prefixed URL (amended C8's
reading of the parse step). -/
structure UrlParts where
  secure : Bool
  netloc : List Char
  host : List Char
  path : List Char
  query : List Char

/-- Parse a defragmented `http(s)://` URL into its components, written from the
amended claim's step list (netloc up to the first `/`/`?`/`#`, host from the
netloc, path up to `?` with the `;params` of its last segment split off, query
after the `?`). -/
def specParse (l : List Char) : UrlParts :=
  let sec := httpsPre.isPrefixOf l
  let body := l.drop (if sec then 8 else 7)
  let netloc := takeUntil netlocStop body
  let tail := dropUntil netlocStop body
  { secure := sec, netloc := netloc, host := pyHostname netloc,
    path := pySplitParams (takeUntil (fun c => c == '?') tail),
    query := (dropUntil (fun c => c == '?') tail).drop 1 }

/-- The amended C8 step list as a function: strip surrounding whitespace and
lowercase; prepend `https://` when the string does not start with `http://` or
`https://`; strip any fragment; parse, raising `ValueError` exactly when the
netloc has unbalanced square brackets; drop a leading `www.` from the host;
strip ALL trailing `/` from the path; reassemble, appending `?query` only when
the query is non-empty. -/
def normalize_url_spec (s : String) : Except String String :=
  let u0 := lowerAll (pyStrip s.data)
  let u1 := if httpPre.isPrefixOf u0 || httpsPre.isPrefixOf u0 then u0 else httpsPre ++ u0
  let P := specParse (takeUntil (fun c => c == '#') u1)
  if invalidNetloc P.netloc then Except.error "Invalid IPv6 URL"
  else Except.ok
    ⟨(if P.secure then ['h', 't', 't', 'p', 's'] else ['h', 't', 't', 'p']) ++
      [':', '/', '/'] ++ wwwDrop P.host ++ rstripAll '/' P.path ++
      (if P.query.isEmpty then [] else '?' :: P.query)⟩

/-- The C9 claim taken literally: the URL's lowercased host (userinfo and port
removed by host extraction) with one leading `www.` stripped. -/
def get_domain_claimed (s : String) : String :=
  ⟨wwwDrop (lowerAll (pyHostname (pyNetloc s.data)))⟩

/-! ## Theorems -/

/-! ### Sorting lemmas -/

theorem insertLe_perm {α : Type} (le : α → α → Bool) (a : α) (l : List α) :
    (insertLe le a l).Perm (a :: l) := by
  induction l with
  | nil => simp [insertLe]
  | cons b bs ih =>
    simp only [insertLe]
    by_cases h : le a b
    · simp [h]
    · simp only [h, if_neg, Bool.false_eq_true, not_false_eq_true, if_false]
      exact ((ih.cons b).trans (List.Perm.swap a b bs))

theorem sortLe_perm {α : Type} (le : α → α → Bool) (l : List α) :
    (sortLe le l).Perm l := by
  induction l with
  | nil => simp [sortLe]
  | cons a as ih =>
    have : sortLe le (a :: as) = insertLe le a (sortLe le as) := rfl
    rw [this]
    exact (insertLe_perm le a (sortLe le as)).trans (ih.cons a)

theorem insertLe_pairwise {α : Type} {le : α → α → Bool}
    (htrans : ∀ a b c, le a b = true → le b c = true → le a c = true)
    (htot : ∀ a b, le a b = true ∨ le b a = true)
    (a : α) {l : List α} (h : l.Pairwise (fun x y => le x y = true)) :
    (insertLe le a l).Pairwise (fun x y => le x y = true) := by
  induction l with
  | nil => simp [insertLe]
  | cons b bs ih =>
    rcases List.pairwise_cons.mp h with ⟨hb, hbs⟩
    simp only [insertLe]
    by_cases hab : le a b
    · simp only [hab, if_true]
      refine List.pairwise_cons.mpr ⟨?_, h⟩
      intro x hx
      rcases List.mem_cons.mp hx with hx | hx
      · subst hx; exact hab
      · exact htrans a b x hab (hb x hx)
    · have hba : le b a = true := by
        rcases htot a b with h1 | h1
        · exact absurd h1 hab
        · exact h1
      simp only [hab, Bool.false_eq_true, if_false]
      refine List.pairwise_cons.mpr ⟨?_, ih hbs⟩
      intro x hx
      rcases List.mem_cons.mp ((insertLe_perm le a bs).mem_iff.mp hx) with hx | hx
      · subst hx; exact hba
      · exact hb x hx

theorem sortLe_pairwise {α : Type} {le : α → α → Bool}
    (htrans : ∀ a b c, le a b = true → le b c = true → le a c = true)
    (htot : ∀ a b, le a b = true ∨ le b a = true) (l : List α) :
    (sortLe le l).Pairwise (fun x y => le x y = true) := by
  induction l with
  | nil => simp [sortLe]
  | cons a as ih => exact insertLe_pairwise htrans htot a ih

theorem rowLe_trans (a b c : LinkResult) :
    rowLe a b = true → rowLe b c = true → rowLe a c = true := by
  simp only [rowLe, decide_eq_true_eq]
  exact Nat.le_trans

theorem rowLe_total (a b : LinkResult) : rowLe a b = true ∨ rowLe b a = true := by
  simp only [rowLe, decide_eq_true_eq]
  exact Nat.le_total a.row_num b.row_num

theorem lexLe_trans (a b c : List Char) :
    lexLe a b = true → lexLe b c = true → lexLe a c = true := by
  induction a generalizing b c with
  | nil => intro _ _; simp [lexLe]
  | cons x xs ih =>
    intro hab hbc
    cases b with
    | nil => simp [lexLe] at hab
    | cons y ys =>
      cases c with
      | nil => simp [lexLe] at hbc
      | cons z zs =>
        simp only [lexLe] at hab hbc ⊢
        by_cases hxy : x = y
        · subst hxy
          simp only [if_pos rfl] at hab
          by_cases hyz : x = z
          · subst hyz
            simp only [if_pos rfl] at hbc ⊢
            exact ih ys zs hab hbc
          · simp only [if_neg hyz] at hbc ⊢
            exact hbc
        · simp only [if_neg hxy, decide_eq_true_eq] at hab
          by_cases hyz : y = z
          · subst hyz
            simp [if_neg hxy, hab]
          · simp only [if_neg hyz, decide_eq_true_eq] at hbc
            have hxz : x < z := lt_trans hab hbc
            have : x ≠ z := ne_of_lt hxz
            simp [if_neg this, hxz]

theorem lexLe_total (a b : List Char) : lexLe a b = true ∨ lexLe b a = true := by
  induction a generalizing b with
  | nil => left; simp [lexLe]
  | cons x xs ih =>
    cases b with
    | nil => right; simp [lexLe]
    | cons y ys =>
      by_cases hxy : x = y
      · subst hxy
        rcases ih ys with h | h
        · left; simpa [lexLe] using h
        · right; simpa [lexLe] using h
      · rcases lt_or_gt_of_ne hxy with h | h
        · left
          simp [lexLe, if_neg hxy, h]
        · right
          have hyx : y ≠ x := fun he => hxy he.symm
          simp [lexLe, if_neg hyx, h]

/-! ### Link-check bookkeeping lemmas -/

theorem joinGroups_addRow (gs : List (String × List Row)) (s : String) (r : Row) :
    (joinGroups (addRow gs s r)).Perm (joinGroups gs ++ [r]) := by
  induction gs with
  | nil => simp [joinGroups, addRow]
  | cons g rest ih =>
    obtain ⟨s', rs⟩ := g
    simp only [addRow]
    by_cases h : s' = s
    · simp only [if_pos h, joinGroups, List.flatMap_cons]
      rw [List.append_assoc, List.append_assoc]
      exact List.Perm.append_left rs List.perm_append_comm
    · simp only [if_neg h, joinGroups, List.flatMap_cons]
      rw [List.append_assoc]
      exact List.Perm.append_left rs ih

theorem joinGroups_foldl (rows : List Row) (gs : List (String × List Row)) :
    (joinGroups (rows.foldl (fun gs row => addRow gs (pyStripS row.site) row) gs)).Perm
      (joinGroups gs ++ rows) := by
  induction rows generalizing gs with
  | nil => simp
  | cons r rest ih =>
    simp only [List.foldl_cons]
    refine (ih (addRow gs (pyStripS r.site) r)).trans ?_
    have h5 := (joinGroups_addRow gs (pyStripS r.site) r).append_right rest
    have e : (joinGroups gs ++ [r]) ++ rest = joinGroups gs ++ (r :: rest) := by
      simp
    exact e ▸ h5

theorem joinGroups_site_groups (rows : List Row) :
    (joinGroups (site_groups rows)).Perm rows := by
  simpa [joinGroups] using joinGroups_foldl rows []

theorem classifyRow_site (s : String) (m : List (String × List String))
    (row : Row) (key : String) : (classifyRow s m row key).site = s := by
  unfold classifyRow
  cases lookupAnchors m key <;> rfl

theorem classifyRows_fst_site (s : String) (m : List (String × List String))
    (rows : List Row) : ∀ r ∈ (classifyRows s m rows).1, r.site = s := by
  induction rows with
  | nil =>
    intro r hr
    simp [classifyRows] at hr
  | cons row rest ih =>
    intro r hr
    rcases hnu : normalize_url row.link with e | key
    · simp [classifyRows, hnu] at hr
    · rcases hrec : classifyRows s m rest with ⟨rs, err⟩
      simp only [classifyRows, hnu, hrec, List.mem_cons] at hr
      rcases hr with hr | hr
      · subst hr; exact classifyRow_site s m row key
      · have := ih r
        rw [hrec] at this
        exact this hr

theorem check_single_site_site (s : String) (rs : List Row) (f : Except String Page) :
    ∀ r ∈ _check_single_site s rs f, r.site = s := by
  intro r hr
  cases f with
  | error e =>
    simp only [_check_single_site] at hr
    obtain ⟨row, _, rfl⟩ := List.mem_map.mp hr
    rfl
  | ok page => ?_
  simp only [_check_single_site] at hr
  rcases hfl : fetch_page_links page with e | page_links
  · rw [hfl] at hr
    obtain ⟨row, _, rfl⟩ := List.mem_map.mp hr
    rfl
  · rw [hfl] at hr
    dsimp only at hr
    rcases hcr : classifyRows s
        (buildAnchorMap (page_links.map fun l => (l.normalized_url, l.anchor))) rs with
      ⟨rs', err⟩
    rw [hcr] at hr
    cases err with
    | none =>
      have := classifyRows_fst_site s
        (buildAnchorMap (page_links.map fun l => (l.normalized_url, l.anchor))) rs r
      rw [hcr] at this
      exact this hr
    | some e =>
      rcases List.mem_append.mp hr with hr | hr
      · have := classifyRows_fst_site s
          (buildAnchorMap (page_links.map fun l => (l.normalized_url, l.anchor))) rs r
        rw [hcr] at this
        exact this hr
      · obtain ⟨row, _, rfl⟩ := List.mem_map.mp hr
        rfl

/-- C1 (code bug): the claimed one-result-per-row guarantee FAILS on the
exception path.  With two rows for site `https://a.com` whose fetch succeeds,
where row 1's expected link is clean and row 2's expected link
`https://[bad` makes `urlparse` raise `ValueError` mid-loop, the handler
appends a `fetch_error` row for EVERY row after the already-classified ones:
the published list has 3 results for 2 input rows, and `row_num` 1 appears
twice — refuting both the length equality and the exactly-once property. -/
theorem linkcheck_duplicate_row_num_bug :
    (run_link_check
        [⟨1, "https://a.com", "https://a.com/x", ""⟩,
         ⟨2, "https://a.com", "https://[bad", ""⟩]
        (fun _ => Except.ok [("https://a.com/x", "hi")])
        (site_groups
          [⟨1, "https://a.com", "https://a.com/x", ""⟩,
           ⟨2, "https://a.com", "https://[bad", ""⟩])).map LinkResult.row_num
      = [1, 1, 2] ∧
    ([⟨1, "https://a.com", "https://a.com/x", ""⟩,
      ⟨2, "https://a.com", "https://[bad", ""⟩] : List Row).length = 2 := by
  constructor
  · decide
  · decide

/-! ### Anchor-map lemmas: the insertion-ordered dict equals its filter
specification -/

theorem lookupAnchors_addAnchor (m : List (String × List String)) (k0 a k : String) :
    lookupAnchors (addAnchor m k0 a) k =
      if k = k0 then some (((lookupAnchors m k).getD []) ++ [a]) else lookupAnchors m k := by
  induction m with
  | nil =>
    by_cases h : k0 = k
    · subst h; simp [addAnchor, lookupAnchors]
    · have h' : ¬ k = k0 := fun he => h he.symm
      simp [addAnchor, lookupAnchors, if_neg h, if_neg h']
  | cons p rest ih =>
    obtain ⟨k', as'⟩ := p
    simp only [addAnchor]
    by_cases h1 : k' = k0
    · subst h1
      by_cases h2 : k' = k
      · subst h2
        simp [lookupAnchors]
      · have h2' : ¬ k = k' := fun he => h2 he.symm
        simp [lookupAnchors, if_neg h2, if_neg h2']
    · simp only [if_neg h1, lookupAnchors]
      by_cases h2 : k' = k
      · subst h2
        have h3 : ¬ k' = k0 := h1
        have h3' : ¬ k' = k0 := h1
        simp [lookupAnchors, if_neg (fun he => h1 he)]
      · simp only [if_neg h2, ih]

theorem lookupAnchors_foldl (prs : List (String × String))
    (m : List (String × List String)) (k : String) :
    lookupAnchors (prs.foldl (fun m pr => addAnchor m pr.1 pr.2) m) k =
      match lookupAnchors m k with
      | some as' => some (as' ++ anchorsFor prs k)
      | none =>
        if prs.any (fun pr => pr.1 == k) then some (anchorsFor prs k) else none := by
  induction prs generalizing m with
  | nil => cases h : lookupAnchors m k <;> simp [anchorsFor, h]
  | cons pr rest ih =>
    obtain ⟨k0, a⟩ := pr
    simp only [List.foldl_cons]
    rw [ih, lookupAnchors_addAnchor]
    by_cases h : k = k0
    · subst h
      have hb : (k == k) = true := beq_self_eq_true k
      cases hm : lookupAnchors m k with
      | some as' =>
        simp [hm, anchorsFor, List.filter_cons, hb, List.append_assoc]
      | none =>
        simp [hm, anchorsFor, List.filter_cons, hb, List.any_cons]
    · have hb : (k0 == k) = false := by
        exact beq_eq_false_iff_ne.mpr (fun he => h he.symm)
      cases hm : lookupAnchors m k with
      | some as' =>
        simp [hm, if_neg h, anchorsFor, List.filter_cons, hb]
      | none =>
        simp only [hm, if_neg h, anchorsFor, List.filter_cons, hb, List.any_cons,
          Bool.false_eq_true, if_false, Bool.false_or]

theorem lookupAnchors_buildAnchorMap (prs : List (String × String)) (k : String) :
    lookupAnchors (buildAnchorMap prs) k =
      if prs.any (fun pr => pr.1 == k) then some (anchorsFor prs k) else none := by
  have h := lookupAnchors_foldl prs [] k
  simpa [buildAnchorMap, lookupAnchors] using h

theorem fetch_page_links_ok (page : Page)
    (hpage : ∀ pr ∈ page, normalize_urlRaises pr.1.data = false) :
    fetch_page_links page = Except.ok (page_links_ok page) := by
  induction page with
  | nil => rfl
  | cons pr rest ih =>
    have h1 : normalize_url pr.1 = Except.ok (normalize_key pr.1) := by
      simp [normalize_url, hpage pr (List.mem_cons_self pr rest), normalize_key]
    have h2 := ih (fun q hq => hpage q (List.mem_cons_of_mem pr hq))
    simp [fetch_page_links, h1, h2, page_links_ok]

theorem classifyRows_ok (s : String) (m : List (String × List String)) (rows : List Row)
    (hrows : ∀ r ∈ rows, normalize_urlRaises r.link.data = false) :
    classifyRows s m rows =
      (rows.map (fun r => classifyRow s m r (normalize_key r.link)), none) := by
  induction rows with
  | nil => rfl
  | cons row rest ih =>
    have h1 : normalize_url row.link = Except.ok (normalize_key row.link) := by
      simp [normalize_url, hrows row (List.mem_cons_self row rest), normalize_key]
    have h2 := ih (fun q hq => hrows q (List.mem_cons_of_mem row hq))
    simp [classifyRows, h1, h2]

theorem classifyRow_eq_spec (site_url : String) (page : Page) (r : Row) :
    classifyRow site_url (buildAnchorMap (pageKeyPairs page)) r (normalize_key r.link) =
      linkRowSpec site_url page r := by
  simp only [linkRowSpec, classifyRow]
  rw [lookupAnchors_buildAnchorMap]
  by_cases h : (pageKeyPairs page).any (fun pr => pr.1 == normalize_key r.link)
  · simp only [h, if_true]
    by_cases he : pyStripS r.anchor = ""
    · simp [he]
    · by_cases hc : ((anchorsFor (pageKeyPairs page) (normalize_key r.link)).map
          lowerS).contains (lowerS (pyStripS r.anchor))
      · simp [he, hc]
      · simp [he, hc]
  · simp [h]

/-- C2 counterexample: classification status is NOT a function of the fetched
page's key map alone — when an expected link's parse raises (unbalanced
bracket), the row gets status `fetch_error` even though the site's fetch
succeeded, where the claimed key-lookup classification yields
`link_not_found`. -/
theorem check_single_site_bracket_link_cex :
    (_check_single_site "https://a.com" [⟨1, "https://a.com", "https://[bad", ""⟩]
        (Except.ok [])).map LinkResult.status = ["fetch_error"] ∧
    ([⟨1, "https://a.com", "https://[bad", ""⟩].map
        (linkRowSpec "https://a.com" ([] : Page))).map LinkResult.status
      = ["link_not_found"] := by
  exact ⟨by decide, by decide⟩

/-- C2 (amended): for a successfully fetched site none of whose page URLs nor
expected links makes `urlparse` raise, the rows are classified exactly per the
specification: normalized key present on the page gives `ok` when the expected
anchor is empty or case-insensitively among the anchors found under that key
(those anchors being attached), else `anchor_mismatch`; an absent key gives
`link_not_found` with no found anchors. -/
theorem check_single_site_success_classification (site_url : String)
    (expected_links : List Row) (page : Page)
    (hpage : ∀ pr ∈ page, normalize_urlRaises pr.1.data = false)
    (hrows : ∀ r ∈ expected_links, normalize_urlRaises r.link.data = false) :
    _check_single_site site_url expected_links (Except.ok page) =
      expected_links.map (linkRowSpec site_url page) := by
  have hf := fetch_page_links_ok page hpage
  simp only [_check_single_site, hf]
  rw [classifyRows_ok site_url
      (buildAnchorMap ((page_links_ok page).map fun l => (l.normalized_url, l.anchor)))
      expected_links hrows]
  apply List.map_congr_left
  intro r _
  exact classifyRow_eq_spec site_url page r

/-- Witness for C2 (amended) at a one-row site whose page carries the expected
link under a differently-written but normalize-equal URL. -/
theorem check_single_site_success_classification_witness :
    _check_single_site "https://a.com"
        [⟨1, "https://a.com", "https://www.a.com/x/", "Hi"⟩]
        (Except.ok [("https://a.com/x", " hi ")]) =
      [⟨1, "https://a.com", "https://www.a.com/x/", "Hi"⟩].map
        (linkRowSpec "https://a.com" [("https://a.com/x", " hi ")]) :=
  check_single_site_success_classification "https://a.com"
    [⟨1, "https://a.com", "https://www.a.com/x/", "Hi"⟩]
    [("https://a.com/x", " hi ")] (by decide) (by decide)

/-! ### Fetch-failure isolation lemmas -/

theorem filter_addRow_eq (gs : List (String × List Row)) (a : String) (r : Row) :
    (addRow gs a r).filter (fun g => g.1 != a) = gs.filter (fun g => g.1 != a) := by
  induction gs with
  | nil => simp [addRow]
  | cons g rest ih =>
    obtain ⟨s', rs⟩ := g
    simp only [addRow]
    by_cases h : s' = a
    · subst h
      simp [List.filter_cons]
    · simp [List.filter_cons, h, ih]

theorem filter_addRow_comm (gs : List (String × List Row)) (a s : String) (r : Row)
    (h : ¬ s = a) :
    (addRow gs s r).filter (fun g => g.1 != a) =
      addRow (gs.filter (fun g => g.1 != a)) s r := by
  induction gs with
  | nil => simp [addRow, List.filter_cons, h]
  | cons g rest ih =>
    obtain ⟨s', rs⟩ := g
    simp only [addRow]
    by_cases h1 : s' = s
    · subst h1
      simp [List.filter_cons, h, addRow]
    · by_cases h2 : s' = a
      · subst h2
        simp [List.filter_cons, if_neg h1, ih]
      · simp [List.filter_cons, if_neg h1, h2, addRow, ih]

theorem site_groups_filter_aux (rows : List Row) (a : String)
    (gs : List (String × List Row)) :
    (rows.filter (fun row => pyStripS row.site != a)).foldl
        (fun gs row => addRow gs (pyStripS row.site) row) (gs.filter (fun g => g.1 != a)) =
      (rows.foldl (fun gs row => addRow gs (pyStripS row.site) row) gs).filter
        (fun g => g.1 != a) := by
  induction rows generalizing gs with
  | nil => rfl
  | cons r rest ih =>
    by_cases h : pyStripS r.site = a
    · simp only [List.filter_cons, h, bne_self_eq_false, Bool.false_eq_true, if_false,
        List.foldl_cons]
      rw [← filter_addRow_eq gs a r]
      exact ih (addRow gs a r)
    · have hb : (pyStripS r.site != a) = true := bne_iff_ne.mpr h
      simp only [List.filter_cons, hb, if_true, List.foldl_cons]
      rw [← filter_addRow_comm gs a (pyStripS r.site) r h, ih]

theorem site_groups_filter (rows : List Row) (a : String) :
    site_groups (rows.filter (fun row => pyStripS row.site != a)) =
      (site_groups rows).filter (fun g => g.1 != a) := by
  have h := site_groups_filter_aux rows a []
  simpa [site_groups] using h

theorem gatherLink_filter (groups : List (String × List Row))
    (fetch : String → Except String Page) (a : String) :
    (gatherLink groups fetch).filter (fun r => r.site != a) =
      gatherLink (groups.filter (fun g => g.1 != a)) fetch := by
  induction groups with
  | nil => rfl
  | cons g rest ih =>
    simp only [gatherLink, List.flatMap_cons, List.filter_append] at *
    by_cases h : g.1 = a
    · have h1 : (_check_single_site g.1 g.2 (fetch g.1)).filter (fun r => r.site != a) = [] := by
        apply List.filter_eq_nil_iff.mpr
        intro r hr
        have := check_single_site_site g.1 g.2 (fetch g.1) r hr
        simp [this, h]
      rw [h1, ih]
      have h2 : (g :: rest).filter (fun g => g.1 != a) = rest.filter (fun g => g.1 != a) := by
        simp [List.filter_cons, h]
      rw [h2]
      simp [gatherLink]
    · have hb : (g.1 != a) = true := bne_iff_ne.mpr h
      have h1 : (_check_single_site g.1 g.2 (fetch g.1)).filter (fun r => r.site != a) =
          _check_single_site g.1 g.2 (fetch g.1) := by
        apply List.filter_eq_self.mpr
        intro r hr
        have := check_single_site_site g.1 g.2 (fetch g.1) r hr
        simp [this, bne_iff_ne.mpr h]
      rw [h1, ih]
      have h2 : (g :: rest).filter (fun g => g.1 != a) = g :: rest.filter (fun g => g.1 != a) := by
        simp [List.filter_cons, hb]
      rw [h2]
      simp [gatherLink, List.flatMap_cons]

/-- C6: when site `a`'s fetch raises with message `e`, every result row of that
site is a `fetch_error` carrying the message truncated to at most 200
characters, and the results of all other sites are exactly those of the run
with site `a`'s rows removed from the input — no cross-site contamination. -/
theorem fetch_error_isolated (rows : List Row) (fetch : String → Except String Page)
    (a e : String) (hfail : fetch a = Except.error e) :
    (∀ r ∈ gatherLink (site_groups rows) fetch, r.site = a →
        r.status = "fetch_error" ∧ r.error = some (strTake 200 e) ∧
          (strTake 200 e).length ≤ 200) ∧
    (gatherLink (site_groups rows) fetch).filter (fun r => r.site != a) =
      gatherLink (site_groups (rows.filter (fun row => pyStripS row.site != a))) fetch := by
  constructor
  · intro r hr hsite
    obtain ⟨g, hg, hrg⟩ := List.mem_flatMap.mp hr
    have hs := check_single_site_site g.1 g.2 (fetch g.1) r hrg
    have hga : g.1 = a := by rw [← hs, hsite]
    rw [hga, hfail] at hrg
    obtain ⟨row, _, rfl⟩ := List.mem_map.mp hrg
    refine ⟨rfl, rfl, ?_⟩
    simp only [strTake, String.length]
    have := List.length_take 200 e.data
    omega
  · rw [site_groups_filter, gatherLink_filter]

/-- Witness for C6: a concrete batch where site `a.com` fails and `b.com`
succeeds; the surviving results equal those of the reduced run. -/
theorem fetch_error_isolated_witness :
    (gatherLink (site_groups
        [⟨1, "https://a.com", "https://a.com/x", ""⟩,
         ⟨2, "https://b.com", "https://b.com/y", ""⟩])
        (fun s => if s = "https://a.com" then Except.error "boom"
                  else Except.ok [("https://b.com/y", "hello")])).filter
        (fun r => r.site != "https://a.com") =
      gatherLink (site_groups
        ([⟨1, "https://a.com", "https://a.com/x", ""⟩,
          ⟨2, "https://b.com", "https://b.com/y", ""⟩].filter
          (fun row => pyStripS row.site != "https://a.com")))
        (fun s => if s = "https://a.com" then Except.error "boom"
                  else Except.ok [("https://b.com/y", "hello")]) := by
  exact (fetch_error_isolated
      [⟨1, "https://a.com", "https://a.com/x", ""⟩,
       ⟨2, "https://b.com", "https://b.com/y", ""⟩]
      (fun s => if s = "https://a.com" then Except.error "boom"
                else Except.ok [("https://b.com/y", "hello")])
      "https://a.com" "boom" rfl).2

/-! ### Submission guard (C4) -/

/-- C4: a submission made while the engine's status has `running = true` is
rejected with a failure outcome and leaves the status untouched — for the
link-check engine at its submission endpoint (where the source places the
guard), and for the domain-check engine both inside `run_domain_check` and at
its endpoint; hence a sequential submitter can never start a second run while
one is in flight. -/
theorem submission_rejected_while_running (rows : List Row) (domains : List String)
    (lst : LinkCheckStatus) (dst : DomainCheckStatus)
    (hl : lst.running = true) (hd : dst.running = true) :
    ((api_link_check_start rows lst).2 = lst ∧
      ∀ n, (api_link_check_start rows lst).1 ≠ SubmitOutcome.accepted n) ∧
    run_domain_check_submit domains dst = (false, dst) ∧
    ((api_domain_check_start domains dst).2 = dst ∧
      ∀ n, (api_domain_check_start domains dst).1 ≠ SubmitOutcome.accepted n) := by
  refine ⟨⟨?_, ?_⟩, ?_, ?_, ?_⟩
  · by_cases h : rows.isEmpty <;> simp [api_link_check_start, h, hl]
  · intro n
    by_cases h : rows.isEmpty <;> simp [api_link_check_start, h, hl]
  · simp [run_domain_check_submit, hd]
  · by_cases h : domains.isEmpty <;> simp [api_domain_check_start, h, hd]
  · intro n
    by_cases h : domains.isEmpty <;> simp [api_domain_check_start, h, hd]

/-- Witness for C4 at a concrete busy state. -/
theorem submission_rejected_while_running_witness :
    (api_link_check_start [⟨1, "https://a.com", "https://a.com/x", ""⟩]
        ⟨true, 1, 0, 1, 0, [], [], []⟩).2 = ⟨true, 1, 0, 1, 0, [], [], []⟩ ∧
    run_domain_check_submit ["a.com"] ⟨true, 1, 0, [], [], []⟩ =
      (false, ⟨true, 1, 0, [], [], []⟩) := by
  have h := submission_rejected_while_running
      [⟨1, "https://a.com", "https://a.com/x", ""⟩] ["a.com"]
      ⟨true, 1, 0, 1, 0, [], [], []⟩ ⟨true, 1, 0, [], [], []⟩ rfl rfl
  exact ⟨h.1.1, h.2.1⟩

/-! ### Domain-check published set (C5) -/

theorem domLe_trans (a b c : DomainResult) :
    domLe a b = true → domLe b c = true → domLe a c = true :=
  lexLe_trans a.domain.data b.domain.data c.domain.data

theorem domLe_total (a b : DomainResult) : domLe a b = true ∨ domLe b a = true :=
  lexLe_total a.domain.data b.domain.data

/-- C5 counterexample: submitting the same domain twice produces two published
results — one per submitted unit — so the published length is the submitted
count (2), not the distinct count (1). -/
theorem domaincheck_duplicate_domains_cex :
    (run_domain_check ["a.com", "a.com"] [] (fun _ => Except.error "x")
        ["a.com", "a.com"]).length ≠
      (["a.com", "a.com"] : List String).dedup.length := by
  decide

/-- C5 amended: the published domain-check result set has exactly one entry per
submitted domain occurrence (duplicates are fetched and reported separately),
and is sorted ascending by the domain string, for every fetch outcome and
completion order. -/
theorem domaincheck_published_length_sorted (domains target_domains : List String)
    (fetch : String → Except String Page) (completed : List String)
    (hperm : completed.Perm domains) :
    (run_domain_check domains target_domains fetch completed).length = domains.length ∧
    (run_domain_check domains target_domains fetch completed).Pairwise
      (fun a b => domLe a b = true) := by
  constructor
  · have h1 := (sortLe_perm domLe
      (completed.map fun d => _check_single_domain d target_domains (fetch d))).length_eq
    simp only [run_domain_check]
    rw [h1, List.length_map]
    exact hperm.length_eq
  · exact sortLe_pairwise domLe_trans domLe_total _

/-- Witness for C5 (amended) at a concrete two-domain input completing in
submission order. -/
theorem domaincheck_published_length_sorted_witness :
    (run_domain_check ["b.com", "a.com"] [] (fun _ => Except.error "x")
        ["b.com", "a.com"]).length = 2 := by
  have h := domaincheck_published_length_sorted ["b.com", "a.com"] []
      (fun _ => Except.error "x") ["b.com", "a.com"] (List.Perm.refl _)
  simpa using h.1

/-! ### Domain-check classification (C7) -/

theorem externalPairs_eq_filter (source : String) (page : Page) :
    externalPairs source page =
      (page.filter (qualifiesExternal source)).map
        (fun pr => (link_domainOf pr.1, anchorText pr.2)) := by
  induction page with
  | nil => rfl
  | cons pr rest ih =>
    cases h1 : ((pySchemeSplit pr.1.data).1 == ['h', 't', 't', 'p'] ||
        (pySchemeSplit pr.1.data).1 == ['h', 't', 't', 'p', 's']) with
    | false =>
      have h1' : ¬ ((pySchemeSplit pr.1.data).1 = ['h', 't', 't', 'p'] ∨
          (pySchemeSplit pr.1.data).1 = ['h', 't', 't', 'p', 's']) := by
        simpa using h1
      have hq : qualifiesExternal source pr = false := by
        simp [qualifiesExternal, h1]
      have hf : externalPairs source (pr :: rest) = externalPairs source rest := by
        simp [externalPairs, List.filterMap_cons, h1']
      rw [hf, ih, List.filter_cons, hq]
      simp only [Bool.false_eq_true, if_false]
    | true =>
      have h1' : (pySchemeSplit pr.1.data).1 = ['h', 't', 't', 'p'] ∨
          (pySchemeSplit pr.1.data).1 = ['h', 't', 't', 'p', 's'] := by
        simpa using h1
      cases h2 : (link_domainOf pr.1 == "") with
      | true =>
        have h2' : link_domainOf pr.1 = "" := by simpa using h2
        have hq : qualifiesExternal source pr = false := by
          simp [qualifiesExternal, h2]
        have hf : externalPairs source (pr :: rest) = externalPairs source rest := by
          simp [externalPairs, List.filterMap_cons, h1', h2']
        rw [hf, ih, List.filter_cons, hq]
        simp only [Bool.false_eq_true, if_false]
      | false =>
        have h2' : ¬ link_domainOf pr.1 = "" := by simpa using h2
        cases h3 : (link_domainOf pr.1 == source) with
        | true =>
          have h3' : link_domainOf pr.1 = source := by simpa using h3
          have hq : qualifiesExternal source pr = false := by
            simp [qualifiesExternal, h3]
          have hf : externalPairs source (pr :: rest) = externalPairs source rest := by
            simp [externalPairs, List.filterMap_cons, h1', h3']
          rw [hf, ih, List.filter_cons, hq]
          simp only [Bool.false_eq_true, if_false]
        | false =>
          have h3' : ¬ link_domainOf pr.1 = source := by simpa using h3
          have hq : qualifiesExternal source pr = true := by
            simp [qualifiesExternal, h1, h2, h3]
          have hf : externalPairs source (pr :: rest) =
              (link_domainOf pr.1, anchorText pr.2) :: externalPairs source rest := by
            simp [externalPairs, List.filterMap_cons, h1', h2', h3']
          rw [hf, ih, List.filter_cons, hq]
          simp only [if_true, List.map_cons]

theorem collectExternal_ok (source : String) (page : Page)
    (hpage : ∀ pr ∈ page, pyNetlocRaises pr.1.data = false) :
    collectExternal source page = Except.ok (externalPairs source page) := by
  induction page with
  | nil => rfl
  | cons pr rest ih =>
    have h1 := hpage pr (List.mem_cons_self pr rest)
    have h2 := ih (fun q hq => hpage q (List.mem_cons_of_mem pr hq))
    simp only [collectExternal, h1, Bool.false_eq_true, if_false, h2,
      externalPairs, List.filterMap_cons]
    split <;> rename_i hx <;> rw [hx]

theorem initTargets_aux (tds : List String) (m : List (String × TargetInfo))
    (hm : ∀ t ∈ m, t.2 = ⟨false, []⟩) :
    ∀ t ∈ tds.foldl (fun m td =>
        if (m.map Prod.fst).contains td then m else m ++ [(td, ⟨false, []⟩)]) m,
      t.2 = ⟨false, []⟩ := by
  induction tds generalizing m with
  | nil => exact hm
  | cons td rest ih =>
    simp only [List.foldl_cons]
    apply ih
    by_cases h : (m.map Prod.fst).contains td = true
    · rw [if_pos h]
      exact hm
    · rw [if_neg h]
      intro t ht
      rcases List.mem_append.mp ht with ht | ht
      · exact hm t ht
      · simp only [List.mem_singleton] at ht
        subst ht
        rfl

theorem initTargets_snd (tds : List String) :
    ∀ t ∈ initTargets tds, t.2 = ⟨false, []⟩ :=
  initTargets_aux tds [] (by simp)

theorem anchorsFor_eq_nil_iff (prs : List (String × String)) (k : String) :
    anchorsFor prs k = [] ↔ prs.any (fun pr => pr.1 == k) = false := by
  constructor
  · intro h
    by_contra hc
    have hany : prs.any (fun pr => pr.1 == k) = true := by
      cases ha : prs.any (fun pr => pr.1 == k)
      · exact absurd ha hc
      · rfl
    obtain ⟨x, hx, hpx⟩ := List.any_eq_true.mp hany
    have : x ∈ prs.filter (fun pr => pr.1 == k) := List.mem_filter.mpr ⟨hx, hpx⟩
    have : Prod.snd x ∈ anchorsFor prs k := List.mem_map.mpr ⟨x, this, rfl⟩
    rw [h] at this
    exact absurd this (List.not_mem_nil _)
  · intro h
    have : prs.filter (fun pr => pr.1 == k) = [] := by
      apply List.filter_eq_nil_iff.mpr
      intro x hx
      intro hpx
      have : prs.any (fun pr => pr.1 == k) = true := List.any_eq_true.mpr ⟨x, hx, hpx⟩
      rw [h] at this
      exact Bool.false_ne_true this
    simp [anchorsFor, this]

/-- C7 counterexample: count and grouping are NOT guaranteed for every
successfully fetched homepage — one in-page anchor whose resolved URL has an
unbalanced-bracket authority makes `urlparse` raise inside the anchor loop,
so the unit aborts to a unit-level `error` record with zero links instead of
counting the page's qualifying anchors. -/
theorem domaincheck_bad_href_cex :
    _check_single_domain "a.com" [] (Except.ok [("https://[bad", "x")]) =
      { domain := "a.com", status := "error", error := some "Invalid IPv6 URL",
        links_count := 0, targets := [] } := by
  decide

/-- C7 (amended): for a successfully fetched homepage none of whose anchor
URLs (nor the submitted domain) makes `urlparse` raise, `_check_single_domain`
reports `ok`, counts exactly the qualifying anchors (scheme http/https,
non-empty domain different from the source domain; duplicates counted), and
marks each requested target found with exactly its group's anchor list
(trimmed text, or `[no anchor]` when empty) precisely when the target's
bare-host form has a non-empty group, all other targets keeping
`{found: false, anchors: []}`. -/
theorem check_single_domain_success_classification (domain : String)
    (target_domains : List String) (page : Page)
    (hsd : pyNetlocRaises ("https://" ++ domain ++ "/").data = false)
    (hpage : ∀ pr ∈ page, pyNetlocRaises pr.1.data = false) :
    _check_single_domain domain target_domains (Except.ok page) =
      { domain := domain, status := "ok", error := none,
        links_count :=
          (page.filter (qualifiesExternal (link_domainOf ("https://" ++ domain ++ "/")))).length,
        targets := (initTargets target_domains).map
          (fun t => domainTargetSpec (link_domainOf ("https://" ++ domain ++ "/")) page t.1) } := by
  have hgd : get_domain ("https://" ++ domain ++ "/") =
      Except.ok (link_domainOf ("https://" ++ domain ++ "/")) := by
    simp only [get_domain]
    rw [hsd]
    rfl
  have hce := collectExternal_ok (link_domainOf ("https://" ++ domain ++ "/")) page hpage
  simp only [_check_single_domain, hgd, hce, DomainResult.mk.injEq]
  refine ⟨trivial, trivial, trivial, ?_, ?_⟩
  · rw [externalPairs_eq_filter, List.length_map]
  · apply List.map_congr_left
    intro t ht
    rw [externalPairs_eq_filter, lookupAnchors_buildAnchorMap]
    have hany : (((page.filter (qualifiesExternal (link_domainOf ("https://" ++ domain ++ "/")))).map
          (fun pr => (link_domainOf pr.1, anchorText pr.2))).any
            (fun pr => pr.1 == lowerS (removeWwwS t.1))) =
        ((page.filter (qualifiesExternal (link_domainOf ("https://" ++ domain ++ "/")))).any
          (fun pr => link_domainOf pr.1 == lowerS (removeWwwS t.1))) := by
      rw [List.any_map]
      rfl
    have hanch : anchorsFor ((page.filter (qualifiesExternal
            (link_domainOf ("https://" ++ domain ++ "/")))).map
            (fun pr => (link_domainOf pr.1, anchorText pr.2))) (lowerS (removeWwwS t.1)) =
        (((page.filter (qualifiesExternal (link_domainOf ("https://" ++ domain ++ "/")))).filter
            (fun pr => link_domainOf pr.1 == lowerS (removeWwwS t.1))).map
          (fun pr => anchorText pr.2)) := by
      simp only [anchorsFor, List.filter_map, List.map_map]
      rfl
    rw [hany]
    cases ha : ((page.filter (qualifiesExternal (link_domainOf ("https://" ++ domain ++ "/")))).any
        (fun pr => link_domainOf pr.1 == lowerS (removeWwwS t.1))) with
    | false =>
      simp only [Bool.false_eq_true, if_false, domainTargetSpec]
      have hnil : (((page.filter (qualifiesExternal
              (link_domainOf ("https://" ++ domain ++ "/")))).filter
              (fun pr => link_domainOf pr.1 == lowerS (removeWwwS t.1))).map
            (fun pr => anchorText pr.2)) = [] := by
        rw [← hanch]
        apply (anchorsFor_eq_nil_iff _ _).mpr
        rw [hany]
        exact ha
      rw [hnil]
      simp only [List.isEmpty_nil, if_true]
      have hsnd := initTargets_snd target_domains t ht
      exact Prod.ext rfl hsnd
    | true =>
      simp only [if_true, domainTargetSpec]
      rw [hanch]
      have hne : (((page.filter (qualifiesExternal
              (link_domainOf ("https://" ++ domain ++ "/")))).filter
              (fun pr => link_domainOf pr.1 == lowerS (removeWwwS t.1))).map
            (fun pr => anchorText pr.2)).isEmpty = false := by
        cases hie : (((page.filter (qualifiesExternal
            (link_domainOf ("https://" ++ domain ++ "/")))).filter
            (fun pr => link_domainOf pr.1 == lowerS (removeWwwS t.1))).map
          (fun pr => anchorText pr.2)).isEmpty with
        | false => rfl
        | true =>
          have hnil := List.isEmpty_iff.mp hie
          rw [← hanch] at hnil
          have := (anchorsFor_eq_nil_iff _ _).mp hnil
          rw [hany, ha] at this
          exact Bool.noConfusion this
      rw [hne]
      simp

/-- Witness for C7 (amended) at a one-target, one-anchor homepage whose
external link hits the target. -/
theorem check_single_domain_success_classification_witness :
    _check_single_domain "a.com" ["b.com"] (Except.ok [("https://b.com/x", " B ")]) =
      { domain := "a.com", status := "ok", error := none,
        links_count := ([("https://b.com/x", " B ")].filter
          (qualifiesExternal (link_domainOf ("https://" ++ "a.com" ++ "/")))).length,
        targets := (initTargets ["b.com"]).map
          (fun t => domainTargetSpec (link_domainOf ("https://" ++ "a.com" ++ "/"))
            [("https://b.com/x", " B ")] t.1) } :=
  check_single_domain_success_classification "a.com" ["b.com"]
    [("https://b.com/x", " B ")] (by decide) (by decide)

/-! ### Character-list lemmas for the URL normalizer -/

theorem dropWhile_eq_self_of {p : Char → Bool} {l : List Char}
    (h : ∀ c ∈ l, p c = false) : l.dropWhile p = l := by
  cases l with
  | nil => rfl
  | cons x xs => simp [List.dropWhile_cons, h x (by simp)]

theorem takeWhile_eq_self_of {p : Char → Bool} {l : List Char}
    (h : ∀ c ∈ l, p c = true) : l.takeWhile p = l := by
  induction l with
  | nil => rfl
  | cons x xs ih =>
    simp only [List.takeWhile_cons, h x (by simp), if_true]
    rw [ih (fun c hc => h c (by simp [hc]))]

theorem takeWhile_append_of {p : Char → Bool} {a : List Char} (b : List Char)
    (h : ∀ c ∈ a, p c = true) : (a ++ b).takeWhile p = a ++ b.takeWhile p := by
  induction a with
  | nil => rfl
  | cons x xs ih =>
    simp only [List.cons_append, List.takeWhile_cons, h x (by simp), if_true]
    rw [ih (fun c hc => h c (by simp [hc]))]

theorem pyStrip_eq_self {l : List Char} (h : ∀ c ∈ l, isPyWs c = false) :
    pyStrip l = l := by
  unfold pyStrip
  rw [dropWhile_eq_self_of h,
    dropWhile_eq_self_of (fun c hc => h c (List.mem_reverse.mp hc)),
    List.reverse_reverse]

theorem lowerAll_eq_self {l : List Char} (h : ∀ c ∈ l, c.toLower = c) :
    lowerAll l = l := by
  unfold lowerAll
  rw [List.map_congr_left h]
  simp

theorem takeUntil_append_of {stop : Char → Bool} {a : List Char} (b : List Char)
    (h : ∀ c ∈ a, stop c = false) : takeUntil stop (a ++ b) = a ++ takeUntil stop b := by
  unfold takeUntil
  exact takeWhile_append_of b (fun c hc => by simp [h c hc])

theorem takeUntil_eq_self_of {stop : Char → Bool} {l : List Char}
    (h : ∀ c ∈ l, stop c = false) : takeUntil stop l = l := by
  unfold takeUntil
  exact takeWhile_eq_self_of (fun c hc => by simp [h c hc])

theorem takeUntil_append_nil {stop : Char → Bool} {p : List Char} (q : List Char)
    (hp : takeUntil stop p = []) (hq : takeUntil stop q = []) :
    takeUntil stop (p ++ q) = [] := by
  cases p with
  | nil => simpa using hq
  | cons c cs =>
    cases hsc : stop c with
    | true => simp [takeUntil, List.takeWhile_cons, hsc]
    | false =>
      exfalso
      simp [takeUntil, List.takeWhile_cons, hsc] at hp

theorem isPrefixOf_append_self (a b : List Char) : a.isPrefixOf (a ++ b) = true := by
  induction a with
  | nil => simp [List.isPrefixOf]
  | cons x xs ih => simp [List.isPrefixOf, ih]

theorem afterLast_eq_self {sep : Char} {l : List Char}
    (h : ∀ c ∈ l, (c == sep) = false) : afterLast sep l = l := by
  unfold afterLast
  rw [takeWhile_eq_self_of (fun c hc => by
      simp [bne, h c (List.mem_reverse.mp hc)]), List.reverse_reverse]

theorem afterLast_append (u h2 : List Char) (hh : ∀ c ∈ h2, (c == '@') = false) :
    afterLast '@' (u ++ '@' :: h2) = h2 := by
  unfold afterLast
  rw [List.reverse_append, List.reverse_cons, List.append_assoc]
  rw [takeWhile_append_of _ (fun c hc => by
      simp [bne, hh c (List.mem_reverse.mp hc)])]
  simp [List.takeWhile_cons]

theorem any_eq_false_of {p : Char → Bool} {l : List Char}
    (h : ∀ c ∈ l, p c = false) : l.any p = false := by
  induction l with
  | nil => rfl
  | cons x xs ih =>
    simp only [List.any_cons, h x (by simp), Bool.false_or]
    exact ih (fun c hc => h c (by simp [hc]))

theorem rstripAll_append_same (c : Char) (l : List Char) :
    rstripAll c (l ++ [c]) = rstripAll c l := by
  unfold rstripAll
  rw [List.reverse_append]
  simp [List.dropWhile_cons]

theorem drop_takeUntil (stop : Char → Bool) (l : List Char) :
    l.drop (takeUntil stop l).length = dropUntil stop l := by
  induction l with
  | nil => rfl
  | cons c cs ih =>
    cases h : stop c with
    | true => simp [takeUntil, dropUntil, List.takeWhile_cons, List.dropWhile_cons, h]
    | false =>
      simp only [takeUntil, dropUntil, List.takeWhile_cons, List.dropWhile_cons, h,
        Bool.not_false, if_true, List.length_cons, List.drop_succ_cons]
      exact ih

theorem pyHostname_plain {n : List Char} (hat : ∀ c ∈ n, (c == '@') = false)
    (hbr : ∀ c ∈ n, (c == '[') = false) (hco : ∀ c ∈ n, (c == ':') = false)
    (hlo : ∀ c ∈ n, c.toLower = c) :
    pyHostname n = n := by
  simp only [pyHostname]
  rw [afterLast_eq_self hat]
  rw [any_eq_false_of hbr]
  simp only [Bool.false_eq_true, if_false]
  rw [takeUntil_eq_self_of hco]
  exact lowerAll_eq_self hlo

theorem netlocStop_no_hash {n : List Char} (hns : ∀ c ∈ n, netlocStop c = false) :
    ∀ c ∈ n, (c == '#') = false := by
  intro c hc
  have h := hns c hc
  simp only [netlocStop, Bool.or_eq_false_iff] at h
  exact h.2

theorem invalidNetloc_eq_false {n : List Char}
    (hbr : ∀ c ∈ n, (c == '[') = false) (hbrr : ∀ c ∈ n, (c == ']') = false) :
    invalidNetloc n = false := by
  unfold invalidNetloc
  rw [any_eq_false_of hbr, any_eq_false_of hbrr]
  rfl

theorem pySplitParams_no_semi {l : List Char} (h : ∀ c ∈ l, (c == ';') = false) :
    pySplitParams l = l := by
  unfold pySplitParams
  rw [any_eq_false_of h]
  rfl

theorem string_data_mk (l : List Char) : (⟨l⟩ : String).data = l := rfl

theorem normalize_url_ok_of {l : List Char} (hraise : normalize_urlRaises l = false) :
    normalize_url ⟨l⟩ = Except.ok ⟨normalize_urlChars l⟩ := by
  unfold normalize_url
  dsimp only
  rw [hraise]
  rfl

theorem normalize_url_congr {X Y : List Char}
    (hn : normalize_urlRaises X = normalize_urlRaises Y)
    (hv : normalize_urlChars X = normalize_urlChars Y) :
    normalize_url ⟨X⟩ = normalize_url ⟨Y⟩ := by
  unfold normalize_url
  dsimp only
  rw [hn, hv]

theorem normalize_split_https (n p : List Char)
    (hnw : ∀ c ∈ n, isPyWs c = false) (hnl : ∀ c ∈ n, c.toLower = c)
    (hns : ∀ c ∈ n, netlocStop c = false)
    (hpw : ∀ c ∈ p, isPyWs c = false) (hpl : ∀ c ∈ p, c.toLower = c)
    (hph : ∀ c ∈ p, (c == '#') = false)
    (hp0 : takeUntil netlocStop p = []) :
    normalize_urlChars (httpsPre ++ n ++ p) =
      ['h', 't', 't', 'p', 's'] ++ [':', '/', '/'] ++ wwwDrop (pyHostname n) ++
        rstripAll '/' (pySplitParams (takeUntil (fun c => c == '?') p)) ++
        (if (p.drop ((takeUntil (fun c => c == '?') p).length + 1)).isEmpty then []
         else '?' :: p.drop ((takeUntil (fun c => c == '?') p).length + 1)) := by
  have hpre1 : ∀ c ∈ httpsPre, isPyWs c = false := by decide
  have hpre2 : ∀ c ∈ httpsPre, Char.toLower c = c := by decide
  have hpre3 : ∀ c ∈ httpsPre, (c == '#') = false := by decide
  rw [List.append_assoc]
  have h0 : pyStrip (httpsPre ++ (n ++ p)) = httpsPre ++ (n ++ p) := by
    apply pyStrip_eq_self
    intro c hc
    rcases List.mem_append.mp hc with h | h
    · exact hpre1 c h
    · rcases List.mem_append.mp h with h | h
      · exact hnw c h
      · exact hpw c h
  have h1 : lowerAll (httpsPre ++ (n ++ p)) = httpsPre ++ (n ++ p) := by
    apply lowerAll_eq_self
    intro c hc
    rcases List.mem_append.mp hc with h | h
    · exact hpre2 c h
    · rcases List.mem_append.mp h with h | h
      · exact hnl c h
      · exact hpl c h
  have h2 : takeUntil (fun c => c == '#') (httpsPre ++ (n ++ p)) = httpsPre ++ (n ++ p) := by
    rw [takeUntil_append_of _ hpre3, takeUntil_append_of _ (netlocStop_no_hash hns),
      takeUntil_eq_self_of hph]
  have h3 : httpsPre.isPrefixOf (httpsPre ++ (n ++ p)) = true := isPrefixOf_append_self _ _
  have h4 : takeUntil netlocStop (n ++ p) = n := by
    rw [takeUntil_append_of _ hns, hp0, List.append_nil]
  have h5 : (httpsPre ++ (n ++ p)).drop 8 = n ++ p := rfl
  have h6 : (n ++ p).drop n.length = p := List.drop_left n p
  simp only [normalize_urlChars, h0, h1, h3, Bool.or_true, if_true, h2, h5, h4, h6]

theorem normNetloc_split_https (n p : List Char)
    (hnw : ∀ c ∈ n, isPyWs c = false) (hnl : ∀ c ∈ n, c.toLower = c)
    (hns : ∀ c ∈ n, netlocStop c = false)
    (hpw : ∀ c ∈ p, isPyWs c = false) (hpl : ∀ c ∈ p, c.toLower = c)
    (hph : ∀ c ∈ p, (c == '#') = false)
    (hp0 : takeUntil netlocStop p = []) :
    normNetloc (httpsPre ++ n ++ p) = n := by
  have hpre1 : ∀ c ∈ httpsPre, isPyWs c = false := by decide
  have hpre2 : ∀ c ∈ httpsPre, Char.toLower c = c := by decide
  have hpre3 : ∀ c ∈ httpsPre, (c == '#') = false := by decide
  rw [List.append_assoc]
  have h0 : pyStrip (httpsPre ++ (n ++ p)) = httpsPre ++ (n ++ p) := by
    apply pyStrip_eq_self
    intro c hc
    rcases List.mem_append.mp hc with h | h
    · exact hpre1 c h
    · rcases List.mem_append.mp h with h | h
      · exact hnw c h
      · exact hpw c h
  have h1 : lowerAll (httpsPre ++ (n ++ p)) = httpsPre ++ (n ++ p) := by
    apply lowerAll_eq_self
    intro c hc
    rcases List.mem_append.mp hc with h | h
    · exact hpre2 c h
    · rcases List.mem_append.mp h with h | h
      · exact hnl c h
      · exact hpl c h
  have h2 : takeUntil (fun c => c == '#') (httpsPre ++ (n ++ p)) = httpsPre ++ (n ++ p) := by
    rw [takeUntil_append_of _ hpre3, takeUntil_append_of _ (netlocStop_no_hash hns),
      takeUntil_eq_self_of hph]
  have h3 : httpsPre.isPrefixOf (httpsPre ++ (n ++ p)) = true := isPrefixOf_append_self _ _
  have h4 : takeUntil netlocStop (n ++ p) = n := by
    rw [takeUntil_append_of _ hns, hp0, List.append_nil]
  have h5 : (httpsPre ++ (n ++ p)).drop 8 = n ++ p := rfl
  simp only [normNetloc, h0, h1, h3, Bool.or_true, if_true, h2, h5, h4]

theorem normalize_split_http (n p : List Char)
    (hnw : ∀ c ∈ n, isPyWs c = false) (hnl : ∀ c ∈ n, c.toLower = c)
    (hns : ∀ c ∈ n, netlocStop c = false)
    (hpw : ∀ c ∈ p, isPyWs c = false) (hpl : ∀ c ∈ p, c.toLower = c)
    (hph : ∀ c ∈ p, (c == '#') = false)
    (hp0 : takeUntil netlocStop p = []) :
    normalize_urlChars (httpPre ++ n ++ p) =
      ['h', 't', 't', 'p'] ++ [':', '/', '/'] ++ wwwDrop (pyHostname n) ++
        rstripAll '/' (pySplitParams (takeUntil (fun c => c == '?') p)) ++
        (if (p.drop ((takeUntil (fun c => c == '?') p).length + 1)).isEmpty then []
         else '?' :: p.drop ((takeUntil (fun c => c == '?') p).length + 1)) := by
  have hpre1 : ∀ c ∈ httpPre, isPyWs c = false := by decide
  have hpre2 : ∀ c ∈ httpPre, Char.toLower c = c := by decide
  have hpre3 : ∀ c ∈ httpPre, (c == '#') = false := by decide
  rw [List.append_assoc]
  have h0 : pyStrip (httpPre ++ (n ++ p)) = httpPre ++ (n ++ p) := by
    apply pyStrip_eq_self
    intro c hc
    rcases List.mem_append.mp hc with h | h
    · exact hpre1 c h
    · rcases List.mem_append.mp h with h | h
      · exact hnw c h
      · exact hpw c h
  have h1 : lowerAll (httpPre ++ (n ++ p)) = httpPre ++ (n ++ p) := by
    apply lowerAll_eq_self
    intro c hc
    rcases List.mem_append.mp hc with h | h
    · exact hpre2 c h
    · rcases List.mem_append.mp h with h | h
      · exact hnl c h
      · exact hpl c h
  have h2 : takeUntil (fun c => c == '#') (httpPre ++ (n ++ p)) = httpPre ++ (n ++ p) := by
    rw [takeUntil_append_of _ hpre3, takeUntil_append_of _ (netlocStop_no_hash hns),
      takeUntil_eq_self_of hph]
  have h3 : httpPre.isPrefixOf (httpPre ++ (n ++ p)) = true := isPrefixOf_append_self _ _
  have h3' : httpsPre.isPrefixOf (httpPre ++ (n ++ p)) = false := rfl
  have h4 : takeUntil netlocStop (n ++ p) = n := by
    rw [takeUntil_append_of _ hns, hp0, List.append_nil]
  have h5 : (httpPre ++ (n ++ p)).drop 7 = n ++ p := rfl
  have h6 : (n ++ p).drop n.length = p := List.drop_left n p
  simp only [normalize_urlChars, h0, h1, h3, h3', Bool.true_or, if_true, Bool.false_eq_true,
    if_false, h2, h5, h4, h6]

theorem normNetloc_split_http (n p : List Char)
    (hnw : ∀ c ∈ n, isPyWs c = false) (hnl : ∀ c ∈ n, c.toLower = c)
    (hns : ∀ c ∈ n, netlocStop c = false)
    (hpw : ∀ c ∈ p, isPyWs c = false) (hpl : ∀ c ∈ p, c.toLower = c)
    (hph : ∀ c ∈ p, (c == '#') = false)
    (hp0 : takeUntil netlocStop p = []) :
    normNetloc (httpPre ++ n ++ p) = n := by
  have hpre1 : ∀ c ∈ httpPre, isPyWs c = false := by decide
  have hpre2 : ∀ c ∈ httpPre, Char.toLower c = c := by decide
  have hpre3 : ∀ c ∈ httpPre, (c == '#') = false := by decide
  rw [List.append_assoc]
  have h0 : pyStrip (httpPre ++ (n ++ p)) = httpPre ++ (n ++ p) := by
    apply pyStrip_eq_self
    intro c hc
    rcases List.mem_append.mp hc with h | h
    · exact hpre1 c h
    · rcases List.mem_append.mp h with h | h
      · exact hnw c h
      · exact hpw c h
  have h1 : lowerAll (httpPre ++ (n ++ p)) = httpPre ++ (n ++ p) := by
    apply lowerAll_eq_self
    intro c hc
    rcases List.mem_append.mp hc with h | h
    · exact hpre2 c h
    · rcases List.mem_append.mp h with h | h
      · exact hnl c h
      · exact hpl c h
  have h2 : takeUntil (fun c => c == '#') (httpPre ++ (n ++ p)) = httpPre ++ (n ++ p) := by
    rw [takeUntil_append_of _ hpre3, takeUntil_append_of _ (netlocStop_no_hash hns),
      takeUntil_eq_self_of hph]
  have h3 : httpPre.isPrefixOf (httpPre ++ (n ++ p)) = true := isPrefixOf_append_self _ _
  have h3' : httpsPre.isPrefixOf (httpPre ++ (n ++ p)) = false := rfl
  have h4 : takeUntil netlocStop (n ++ p) = n := by
    rw [takeUntil_append_of _ hns, hp0, List.append_nil]
  have h5 : (httpPre ++ (n ++ p)).drop 7 = n ++ p := rfl
  simp only [normNetloc, h0, h1, h3, h3', Bool.true_or, if_true, Bool.false_eq_true,
    if_false, h2, h5, h4]

theorem normalize_defrag_congr (X Y : List Char)
    (hx0 : pyStrip X = X) (hx1 : lowerAll X = X)
    (hy0 : pyStrip Y = Y) (hy1 : lowerAll Y = Y)
    (hxp : (httpPre.isPrefixOf X || httpsPre.isPrefixOf X) = true)
    (hyp' : (httpPre.isPrefixOf Y || httpsPre.isPrefixOf Y) = true)
    (hfrag : takeUntil (fun c => c == '#') X = takeUntil (fun c => c == '#') Y) :
    normalize_urlChars X = normalize_urlChars Y := by
  simp only [normalize_urlChars, hx0, hx1, hy0, hy1, hxp, hyp', if_true, hfrag]

theorem normNetloc_defrag_congr (X Y : List Char)
    (hx0 : pyStrip X = X) (hx1 : lowerAll X = X)
    (hy0 : pyStrip Y = Y) (hy1 : lowerAll Y = Y)
    (hxp : (httpPre.isPrefixOf X || httpsPre.isPrefixOf X) = true)
    (hyp' : (httpPre.isPrefixOf Y || httpsPre.isPrefixOf Y) = true)
    (hfrag : takeUntil (fun c => c == '#') X = takeUntil (fun c => c == '#') Y) :
    normNetloc X = normNetloc Y := by
  simp only [normNetloc, hx0, hx1, hy0, hy1, hxp, hyp', if_true, hfrag]

theorem normalize_url_defrag_congr (X Y : List Char)
    (hx0 : pyStrip X = X) (hx1 : lowerAll X = X)
    (hy0 : pyStrip Y = Y) (hy1 : lowerAll Y = Y)
    (hxp : (httpPre.isPrefixOf X || httpsPre.isPrefixOf X) = true)
    (hyp' : (httpPre.isPrefixOf Y || httpsPre.isPrefixOf Y) = true)
    (hfrag : takeUntil (fun c => c == '#') X = takeUntil (fun c => c == '#') Y) :
    normalize_url ⟨X⟩ = normalize_url ⟨Y⟩ := by
  apply normalize_url_congr
  · unfold normalize_urlRaises
    rw [normNetloc_defrag_congr X Y hx0 hx1 hy0 hy1 hxp hyp' hfrag]
  · exact normalize_defrag_congr X Y hx0 hx1 hy0 hy1 hxp hyp' hfrag

/-- C3 counterexample: `normalize_url` preserves the scheme in the key, so the
`http` and `https` variants of one URL do not yield the identical key. -/
theorem normalize_scheme_not_ignored_cex :
    normalize_url "http://example.com/a" = Except.ok "http://example.com/a" ∧
    normalize_url "https://example.com/a" = Except.ok "https://example.com/a" ∧
    normalize_url "http://example.com/a" ≠ normalize_url "https://example.com/a" := by
  refine ⟨by decide, by decide, by decide⟩

/-- C3 (amended): for a clean host and path (bracket-free host, no `;params`
in the path), the `www.` variant, the trailing-slash variant and the fragment
variant of an `https` URL all normalize without raising to the identical key,
while the `http`-scheme variant yields a different key — the scheme is
preserved in the key rather than ignored. -/
theorem normalize_variant_keys (h p f : List Char)
    (hhw : ∀ c ∈ h, isPyWs c = false) (hhl : ∀ c ∈ h, c.toLower = c)
    (hhs : ∀ c ∈ h, netlocStop c = false)
    (hat : ∀ c ∈ h, (c == '@') = false) (hbr : ∀ c ∈ h, (c == '[') = false)
    (hbrr : ∀ c ∈ h, (c == ']') = false)
    (hco : ∀ c ∈ h, (c == ':') = false)
    (hw : wwwPre.isPrefixOf h = false)
    (hpw : ∀ c ∈ p, isPyWs c = false) (hpl : ∀ c ∈ p, c.toLower = c)
    (hph : ∀ c ∈ p, (c == '#') = false) (hpq : ∀ c ∈ p, (c == '?') = false)
    (hpsc : ∀ c ∈ p, (c == ';') = false)
    (hp0 : takeUntil netlocStop p = [])
    (hfw : ∀ c ∈ f, isPyWs c = false) (hfl : ∀ c ∈ f, c.toLower = c) :
    normalize_url ⟨httpsPre ++ (wwwPre ++ h) ++ p⟩ =
        normalize_url ⟨httpsPre ++ h ++ p⟩ ∧
    normalize_url ⟨httpsPre ++ h ++ (p ++ ['/'])⟩ =
        normalize_url ⟨httpsPre ++ h ++ p⟩ ∧
    normalize_url ⟨httpsPre ++ h ++ (p ++ '#' :: f)⟩ =
        normalize_url ⟨httpsPre ++ h ++ p⟩ ∧
    normalize_urlRaises (httpsPre ++ h ++ p) = false ∧
    normalize_url ⟨httpPre ++ h ++ p⟩ ≠ normalize_url ⟨httpsPre ++ h ++ p⟩ := by
  have hwww1 : ∀ c ∈ wwwPre, isPyWs c = false := by decide
  have hwww2 : ∀ c ∈ wwwPre, Char.toLower c = c := by decide
  have hwww3 : ∀ c ∈ wwwPre, netlocStop c = false := by decide
  have hwww4 : ∀ c ∈ wwwPre, (c == '@') = false := by decide
  have hwww5 : ∀ c ∈ wwwPre, (c == '[') = false := by decide
  have hwww6 : ∀ c ∈ wwwPre, (c == ':') = false := by decide
  have hwww7 : ∀ c ∈ wwwPre, (c == ']') = false := by decide
  have memw : ∀ (q : Char → Bool), (∀ c ∈ wwwPre, q c = false) → (∀ c ∈ h, q c = false) →
      ∀ c ∈ wwwPre ++ h, q c = false := by
    intro q h1 h2 c hc
    rcases List.mem_append.mp hc with hm | hm
    · exact h1 c hm
    · exact h2 c hm
  have memw' : ∀ c ∈ wwwPre ++ h, Char.toLower c = c := by
    intro c hc
    rcases List.mem_append.mp hc with hm | hm
    · exact hwww2 c hm
    · exact hhl c hm
  have hbase := normalize_split_https h p hhw hhl hhs hpw hpl hph hp0
  have hraiseB : normalize_urlRaises (httpsPre ++ h ++ p) = false := by
    unfold normalize_urlRaises
    rw [normNetloc_split_https h p hhw hhl hhs hpw hpl hph hp0]
    exact invalidNetloc_eq_false hbr hbrr
  have hokB := normalize_url_ok_of hraiseB
  have hhost : pyHostname h = h := pyHostname_plain hat hbr hco hhl
  have hwd : wwwDrop h = h := by simp [wwwDrop, hw]
  have hqp : takeUntil (fun c => c == '?') p = p := takeUntil_eq_self_of hpq
  have hsemip : pySplitParams p = p := pySplitParams_no_semi hpsc
  have hdp : p.drop (p.length + 1) = [] := List.drop_eq_nil_of_le (by omega)
  refine ⟨?_, ?_, ?_, hraiseB, ?_⟩
  · have h1 := normalize_split_https (wwwPre ++ h) p (memw _ hwww1 hhw) memw'
      (memw _ hwww3 hhs) hpw hpl hph hp0
    have hraiseA : normalize_urlRaises (httpsPre ++ (wwwPre ++ h) ++ p) = false := by
      unfold normalize_urlRaises
      rw [normNetloc_split_https (wwwPre ++ h) p (memw _ hwww1 hhw) memw'
        (memw _ hwww3 hhs) hpw hpl hph hp0]
      exact invalidNetloc_eq_false (memw _ hwww5 hbr) (memw _ hwww7 hbrr)
    have hhostw : pyHostname (wwwPre ++ h) = wwwPre ++ h :=
      pyHostname_plain (memw _ hwww4 hat) (memw _ hwww5 hbr) (memw _ hwww6 hco) memw'
    have hwdw : wwwDrop (wwwPre ++ h) = h := by
      simp only [wwwDrop, isPrefixOf_append_self, if_true]
      rfl
    rw [normalize_url_ok_of hraiseA, hokB]
    have hval : normalize_urlChars (httpsPre ++ (wwwPre ++ h) ++ p) =
        normalize_urlChars (httpsPre ++ h ++ p) := by
      rw [h1, hbase, hhost, hhostw, hwdw, hwd]
    exact congrArg (fun l => (Except.ok (⟨l⟩ : String) : Except String String)) hval
  · have hsw : ∀ c ∈ p ++ ['/'], isPyWs c = false := by
      intro c hc
      rcases List.mem_append.mp hc with hm | hm
      · exact hpw c hm
      · simp only [List.mem_singleton] at hm; subst hm; decide
    have hsl : ∀ c ∈ p ++ ['/'], Char.toLower c = c := by
      intro c hc
      rcases List.mem_append.mp hc with hm | hm
      · exact hpl c hm
      · simp only [List.mem_singleton] at hm; subst hm; decide
    have hsh : ∀ c ∈ p ++ ['/'], (c == '#') = false := by
      intro c hc
      rcases List.mem_append.mp hc with hm | hm
      · exact hph c hm
      · simp only [List.mem_singleton] at hm; subst hm; decide
    have hssc : ∀ c ∈ p ++ ['/'], (c == ';') = false := by
      intro c hc
      rcases List.mem_append.mp hc with hm | hm
      · exact hpsc c hm
      · simp only [List.mem_singleton] at hm; subst hm; decide
    have hs0 : takeUntil netlocStop (p ++ ['/']) = [] :=
      takeUntil_append_nil _ hp0 rfl
    have h2 := normalize_split_https h (p ++ ['/']) hhw hhl hhs hsw hsl hsh hs0
    have hraiseC : normalize_urlRaises (httpsPre ++ h ++ (p ++ ['/'])) = false := by
      unfold normalize_urlRaises
      rw [normNetloc_split_https h (p ++ ['/']) hhw hhl hhs hsw hsl hsh hs0]
      exact invalidNetloc_eq_false hbr hbrr
    have hq1 : takeUntil (fun c => c == '?') (p ++ ['/']) = p ++ ['/'] := by
      rw [takeUntil_append_of _ hpq]
      rfl
    have hr1 : rstripAll '/' (p ++ ['/']) = rstripAll '/' p := rstripAll_append_same '/' p
    have hd1 : (p ++ ['/']).drop ((p ++ ['/']).length + 1) = [] :=
      List.drop_eq_nil_of_le (by omega)
    rw [normalize_url_ok_of hraiseC, hokB]
    have hval : normalize_urlChars (httpsPre ++ h ++ (p ++ ['/'])) =
        normalize_urlChars (httpsPre ++ h ++ p) := by
      rw [h2, hbase, hq1, hqp, pySplitParams_no_semi hssc, hsemip, hr1, hdp, hd1]
    exact congrArg (fun l => (Except.ok (⟨l⟩ : String) : Except String String)) hval
  · have hpre1 : ∀ c ∈ httpsPre, isPyWs c = false := by decide
    have hpre2 : ∀ c ∈ httpsPre, Char.toLower c = c := by decide
    have hpre3 : ∀ c ∈ httpsPre, (c == '#') = false := by decide
    have memXw : ∀ c ∈ httpsPre ++ h ++ (p ++ '#' :: f), isPyWs c = false := by
      intro c hc
      rcases List.mem_append.mp hc with hm | hm
      · rcases List.mem_append.mp hm with hm2 | hm2
        · exact hpre1 c hm2
        · exact hhw c hm2
      · rcases List.mem_append.mp hm with hm2 | hm2
        · exact hpw c hm2
        · rcases List.mem_cons.mp hm2 with hm3 | hm3
          · subst hm3; decide
          · exact hfw c hm3
    have memXl : ∀ c ∈ httpsPre ++ h ++ (p ++ '#' :: f), Char.toLower c = c := by
      intro c hc
      rcases List.mem_append.mp hc with hm | hm
      · rcases List.mem_append.mp hm with hm2 | hm2
        · exact hpre2 c hm2
        · exact hhl c hm2
      · rcases List.mem_append.mp hm with hm2 | hm2
        · exact hpl c hm2
        · rcases List.mem_cons.mp hm2 with hm3 | hm3
          · subst hm3; decide
          · exact hfl c hm3
    have memYw : ∀ c ∈ httpsPre ++ h ++ p, isPyWs c = false := by
      intro c hc
      rcases List.mem_append.mp hc with hm | hm
      · rcases List.mem_append.mp hm with hm2 | hm2
        · exact hpre1 c hm2
        · exact hhw c hm2
      · exact hpw c hm
    have memYl : ∀ c ∈ httpsPre ++ h ++ p, Char.toLower c = c := by
      intro c hc
      rcases List.mem_append.mp hc with hm | hm
      · rcases List.mem_append.mp hm with hm2 | hm2
        · exact hpre2 c hm2
        · exact hhl c hm2
      · exact hpl c hm
    have hxp : (httpPre.isPrefixOf (httpsPre ++ h ++ (p ++ '#' :: f)) ||
        httpsPre.isPrefixOf (httpsPre ++ h ++ (p ++ '#' :: f))) = true := by
      rw [List.append_assoc]
      simp [isPrefixOf_append_self]
    have hyp2 : (httpPre.isPrefixOf (httpsPre ++ h ++ p) ||
        httpsPre.isPrefixOf (httpsPre ++ h ++ p)) = true := by
      rw [List.append_assoc]
      simp [isPrefixOf_append_self]
    have hfragX : takeUntil (fun c => c == '#') (httpsPre ++ h ++ (p ++ '#' :: f)) =
        httpsPre ++ h ++ p := by
      rw [List.append_assoc, takeUntil_append_of _ hpre3,
        takeUntil_append_of _ (netlocStop_no_hash hhs), takeUntil_append_of _ hph]
      have hstop : takeUntil (fun c => c == '#') ('#' :: f) = [] := rfl
      rw [hstop, List.append_nil, List.append_assoc]
    have hfragY : takeUntil (fun c => c == '#') (httpsPre ++ h ++ p) =
        httpsPre ++ h ++ p := by
      rw [List.append_assoc, takeUntil_append_of _ hpre3,
        takeUntil_append_of _ (netlocStop_no_hash hhs), takeUntil_eq_self_of hph]
    exact normalize_url_defrag_congr _ _ (pyStrip_eq_self memXw) (lowerAll_eq_self memXl)
      (pyStrip_eq_self memYw) (lowerAll_eq_self memYl) hxp hyp2
      (hfragX.trans hfragY.symm)
  · intro heq
    have hraiseE : normalize_urlRaises (httpPre ++ h ++ p) = false := by
      unfold normalize_urlRaises
      rw [normNetloc_split_http h p hhw hhl hhs hpw hpl hph hp0]
      exact invalidNetloc_eq_false hbr hbrr
    rw [normalize_url_ok_of hraiseE, hokB] at heq
    have heq2 : normalize_urlChars (httpPre ++ h ++ p) =
        normalize_urlChars (httpsPre ++ h ++ p) :=
      congrArg String.data (Except.ok.inj heq)
    rw [normalize_split_http h p hhw hhl hhs hpw hpl hph hp0, hbase] at heq2
    have hlen := congrArg List.length heq2
    simp only [List.length_append, List.length_cons, List.length_nil] at hlen
    omega

/-- Witness for C3 (amended) at a concrete clean host and path. -/
theorem normalize_variant_keys_witness :
    normalize_url ⟨httpsPre ++ (wwwPre ++ "example.com".data) ++ "/about".data⟩ =
        normalize_url ⟨httpsPre ++ "example.com".data ++ "/about".data⟩ ∧
    normalize_url ⟨httpPre ++ "example.com".data ++ "/about".data⟩ ≠
        normalize_url ⟨httpsPre ++ "example.com".data ++ "/about".data⟩ := by
  have h := normalize_variant_keys "example.com".data "/about".data "sec".data
    (by decide) (by decide) (by decide) (by decide) (by decide) (by decide) (by decide)
    (by decide) (by decide) (by decide) (by decide) (by decide) (by decide) (by decide)
    (by decide) (by decide)
  exact ⟨h.1, h.2.2.2.2⟩

theorem pyHostname_port (h2 port : List Char)
    (hat : ∀ c ∈ h2, (c == '@') = false) (hbr : ∀ c ∈ h2, (c == '[') = false)
    (hco : ∀ c ∈ h2, (c == ':') = false) (hlo : ∀ c ∈ h2, c.toLower = c)
    (pat : ∀ c ∈ port, (c == '@') = false) (pbr : ∀ c ∈ port, (c == '[') = false) :
    pyHostname (h2 ++ ':' :: port) = h2 := by
  have hmat : ∀ c ∈ h2 ++ ':' :: port, (c == '@') = false := by
    intro c hc
    rcases List.mem_append.mp hc with hm | hm
    · exact hat c hm
    · rcases List.mem_cons.mp hm with hm2 | hm2
      · subst hm2; decide
      · exact pat c hm2
  have hmbr : ∀ c ∈ h2 ++ ':' :: port, (c == '[') = false := by
    intro c hc
    rcases List.mem_append.mp hc with hm | hm
    · exact hbr c hm
    · rcases List.mem_cons.mp hm with hm2 | hm2
      · subst hm2; decide
      · exact pbr c hm2
  simp only [pyHostname]
  rw [afterLast_eq_self hmat, any_eq_false_of hmbr]
  simp only [Bool.false_eq_true, if_false]
  rw [takeUntil_append_of _ hco]
  have hstop : takeUntil (fun c => c == ':') (':' :: port) = [] := rfl
  rw [hstop, List.append_nil]
  exact lowerAll_eq_self hlo

theorem pyHostname_user (u h2 : List Char)
    (hat : ∀ c ∈ h2, (c == '@') = false) (hbr : ∀ c ∈ h2, (c == '[') = false)
    (hco : ∀ c ∈ h2, (c == ':') = false) (hlo : ∀ c ∈ h2, c.toLower = c) :
    pyHostname (u ++ '@' :: h2) = h2 := by
  simp only [pyHostname]
  rw [afterLast_append u h2 hat, any_eq_false_of hbr]
  simp only [Bool.false_eq_true, if_false]
  rw [takeUntil_eq_self_of hco]
  exact lowerAll_eq_self hlo

/-- C10 counterexample: the userinfo segment is NOT discarded for every
userinfo — a `[` inside it makes the parse raise `ValueError`, so the
userinfo variant yields no key at all while the plain URL does. -/
theorem normalize_userinfo_bracket_cex :
    normalize_url "https://u[x@example.com/a" = Except.error "Invalid IPv6 URL" ∧
    normalize_url "https://example.com/a" = Except.ok "https://example.com/a" := by
  exact ⟨by decide, by decide⟩

/-- C10 (amended): for every clean host, path and query and bracket-free port
and userinfo segments, `normalize_url` discards an explicit `:port` and any
`userinfo@` segment of the authority — the port and userinfo variants of a
URL normalize, without raising, to the identical key as the plain-host URL. -/
theorem normalize_discards_port_userinfo (h p port u : List Char)
    (hhw : ∀ c ∈ h, isPyWs c = false) (hhl : ∀ c ∈ h, c.toLower = c)
    (hhs : ∀ c ∈ h, netlocStop c = false)
    (hat : ∀ c ∈ h, (c == '@') = false) (hbr : ∀ c ∈ h, (c == '[') = false)
    (hbrr : ∀ c ∈ h, (c == ']') = false)
    (hco : ∀ c ∈ h, (c == ':') = false)
    (hpw : ∀ c ∈ p, isPyWs c = false) (hpl : ∀ c ∈ p, c.toLower = c)
    (hph : ∀ c ∈ p, (c == '#') = false) (hp0 : takeUntil netlocStop p = [])
    (hptw : ∀ c ∈ port, isPyWs c = false) (hptl : ∀ c ∈ port, c.toLower = c)
    (hpts : ∀ c ∈ port, netlocStop c = false)
    (hpta : ∀ c ∈ port, (c == '@') = false) (hptb : ∀ c ∈ port, (c == '[') = false)
    (hptbr : ∀ c ∈ port, (c == ']') = false)
    (huw : ∀ c ∈ u, isPyWs c = false) (hul : ∀ c ∈ u, c.toLower = c)
    (hus : ∀ c ∈ u, netlocStop c = false)
    (hub : ∀ c ∈ u, (c == '[') = false) (hubr : ∀ c ∈ u, (c == ']') = false) :
    normalize_url ⟨httpsPre ++ (h ++ ':' :: port) ++ p⟩ =
        normalize_url ⟨httpsPre ++ h ++ p⟩ ∧
    normalize_url ⟨httpsPre ++ (u ++ '@' :: h) ++ p⟩ =
        normalize_url ⟨httpsPre ++ h ++ p⟩ ∧
    normalize_urlRaises (httpsPre ++ h ++ p) = false := by
  have hn0 := normalize_split_https h p hhw hhl hhs hpw hpl hph hp0
  have hhost : pyHostname h = h := pyHostname_plain hat hbr hco hhl
  have hraiseB : normalize_urlRaises (httpsPre ++ h ++ p) = false := by
    unfold normalize_urlRaises
    rw [normNetloc_split_https h p hhw hhl hhs hpw hpl hph hp0]
    exact invalidNetloc_eq_false hbr hbrr
  have hokB := normalize_url_ok_of hraiseB
  refine ⟨?_, ?_, hraiseB⟩
  · have hm1 : ∀ c ∈ h ++ ':' :: port, isPyWs c = false := by
      intro c hc
      rcases List.mem_append.mp hc with hm | hm
      · exact hhw c hm
      · rcases List.mem_cons.mp hm with hm2 | hm2
        · subst hm2; decide
        · exact hptw c hm2
    have hm2 : ∀ c ∈ h ++ ':' :: port, Char.toLower c = c := by
      intro c hc
      rcases List.mem_append.mp hc with hm | hm
      · exact hhl c hm
      · rcases List.mem_cons.mp hm with hm2 | hm2
        · subst hm2; decide
        · exact hptl c hm2
    have hm3 : ∀ c ∈ h ++ ':' :: port, netlocStop c = false := by
      intro c hc
      rcases List.mem_append.mp hc with hm | hm
      · exact hhs c hm
      · rcases List.mem_cons.mp hm with hm2 | hm2
        · subst hm2; decide
        · exact hpts c hm2
    have hn1 := normalize_split_https (h ++ ':' :: port) p hm1 hm2 hm3 hpw hpl hph hp0
    have hraise1 : normalize_urlRaises (httpsPre ++ (h ++ ':' :: port) ++ p) = false := by
      unfold normalize_urlRaises
      rw [normNetloc_split_https (h ++ ':' :: port) p hm1 hm2 hm3 hpw hpl hph hp0]
      apply invalidNetloc_eq_false
      · intro c hc
        rcases List.mem_append.mp hc with hm | hm
        · exact hbr c hm
        · rcases List.mem_cons.mp hm with hm2 | hm2
          · subst hm2; decide
          · exact hptb c hm2
      · intro c hc
        rcases List.mem_append.mp hc with hm | hm
        · exact hbrr c hm
        · rcases List.mem_cons.mp hm with hm2 | hm2
          · subst hm2; decide
          · exact hptbr c hm2
    rw [normalize_url_ok_of hraise1, hokB]
    have hval : normalize_urlChars (httpsPre ++ (h ++ ':' :: port) ++ p) =
        normalize_urlChars (httpsPre ++ h ++ p) := by
      rw [hn1, hn0, hhost, pyHostname_port h port hat hbr hco hhl hpta hptb]
    exact congrArg (fun l => (Except.ok (⟨l⟩ : String) : Except String String)) hval
  · have hm1 : ∀ c ∈ u ++ '@' :: h, isPyWs c = false := by
      intro c hc
      rcases List.mem_append.mp hc with hm | hm
      · exact huw c hm
      · rcases List.mem_cons.mp hm with hm2 | hm2
        · subst hm2; decide
        · exact hhw c hm2
    have hm2 : ∀ c ∈ u ++ '@' :: h, Char.toLower c = c := by
      intro c hc
      rcases List.mem_append.mp hc with hm | hm
      · exact hul c hm
      · rcases List.mem_cons.mp hm with hm2 | hm2
        · subst hm2; decide
        · exact hhl c hm2
    have hm3 : ∀ c ∈ u ++ '@' :: h, netlocStop c = false := by
      intro c hc
      rcases List.mem_append.mp hc with hm | hm
      · exact hus c hm
      · rcases List.mem_cons.mp hm with hm2 | hm2
        · subst hm2; decide
        · exact hhs c hm2
    have hn2 := normalize_split_https (u ++ '@' :: h) p hm1 hm2 hm3 hpw hpl hph hp0
    have hraise2 : normalize_urlRaises (httpsPre ++ (u ++ '@' :: h) ++ p) = false := by
      unfold normalize_urlRaises
      rw [normNetloc_split_https (u ++ '@' :: h) p hm1 hm2 hm3 hpw hpl hph hp0]
      apply invalidNetloc_eq_false
      · intro c hc
        rcases List.mem_append.mp hc with hm | hm
        · exact hub c hm
        · rcases List.mem_cons.mp hm with hm2 | hm2
          · subst hm2; decide
          · exact hbr c hm2
      · intro c hc
        rcases List.mem_append.mp hc with hm | hm
        · exact hubr c hm
        · rcases List.mem_cons.mp hm with hm2 | hm2
          · subst hm2; decide
          · exact hbrr c hm2
    rw [normalize_url_ok_of hraise2, hokB]
    have hval : normalize_urlChars (httpsPre ++ (u ++ '@' :: h) ++ p) =
        normalize_urlChars (httpsPre ++ h ++ p) := by
      rw [hn2, hn0, hhost, pyHostname_user u h hat hbr hco hhl]
    exact congrArg (fun l => (Except.ok (⟨l⟩ : String) : Except String String)) hval

/-- Witness for C10 (amended) at a concrete host with port `8080`, userinfo
`user:pw`, and a path with a query string. -/
theorem normalize_discards_port_userinfo_witness :
    normalize_url ⟨httpsPre ++ ("example.com".data ++ ':' :: "8080".data) ++
        "/a?q=1".data⟩ =
      normalize_url ⟨httpsPre ++ "example.com".data ++ "/a?q=1".data⟩ ∧
    normalize_url ⟨httpsPre ++ ("user:pw".data ++ '@' :: "example.com".data) ++
        "/a?q=1".data⟩ =
      normalize_url ⟨httpsPre ++ "example.com".data ++ "/a?q=1".data⟩ := by
  have h := normalize_discards_port_userinfo "example.com".data "/a?q=1".data
    "8080".data "user:pw".data
    (by decide) (by decide) (by decide) (by decide) (by decide) (by decide) (by decide)
    (by decide) (by decide) (by decide) (by decide)
    (by decide) (by decide) (by decide) (by decide) (by decide) (by decide)
    (by decide) (by decide) (by decide) (by decide) (by decide)
  exact ⟨h.1, h.2.1⟩

/-! ### get_domain (C9) and the normalize step list (C8) -/

theorem pySchemeSplit_http (X : List Char) :
    pySchemeSplit (httpPre ++ X) = (['h', 't', 't', 'p'], '/' :: '/' :: X) := by
  have hlen : (takeUntil (fun c => c == ':') (httpPre ++ X)).length <
      (httpPre ++ X).length := by
    have he : takeUntil (fun c => c == ':') (httpPre ++ X) = ['h', 't', 't', 'p'] := rfl
    rw [he]
    simp [httpPre]
  simp only [pySchemeSplit]
  rw [decide_eq_true hlen]
  rfl

theorem pySchemeSplit_https (X : List Char) :
    pySchemeSplit (httpsPre ++ X) = (['h', 't', 't', 'p', 's'], '/' :: '/' :: X) := by
  have hlen : (takeUntil (fun c => c == ':') (httpsPre ++ X)).length <
      (httpsPre ++ X).length := by
    have he : takeUntil (fun c => c == ':') (httpsPre ++ X) = ['h', 't', 't', 'p', 's'] := rfl
    rw [he]
    simp [httpsPre]
  simp only [pySchemeSplit]
  rw [decide_eq_true hlen]
  rfl

theorem pyNetloc_http (n p : List Char) (hn : ∀ c ∈ n, netlocStop c = false)
    (hp0 : takeUntil netlocStop p = []) : pyNetloc (httpPre ++ (n ++ p)) = n := by
  have hnet : takeUntil netlocStop (n ++ p) = n := by
    rw [takeUntil_append_of _ hn, hp0, List.append_nil]
  simp only [pyNetloc, pySchemeSplit_http]
  have h1 : (['/', '/'] : List Char).isPrefixOf ('/' :: '/' :: (n ++ p)) = true :=
    isPrefixOf_append_self ['/', '/'] (n ++ p)
  have h2 : ('/' :: '/' :: (n ++ p)).drop 2 = n ++ p := rfl
  rw [if_pos h1, h2, hnet]

theorem pyNetloc_https (n p : List Char) (hn : ∀ c ∈ n, netlocStop c = false)
    (hp0 : takeUntil netlocStop p = []) : pyNetloc (httpsPre ++ (n ++ p)) = n := by
  have hnet : takeUntil netlocStop (n ++ p) = n := by
    rw [takeUntil_append_of _ hn, hp0, List.append_nil]
  simp only [pyNetloc, pySchemeSplit_https]
  have h1 : (['/', '/'] : List Char).isPrefixOf ('/' :: '/' :: (n ++ p)) = true :=
    isPrefixOf_append_self ['/', '/'] (n ++ p)
  have h2 : ('/' :: '/' :: (n ++ p)).drop 2 = n ++ p := rfl
  rw [if_pos h1, h2, hnet]

theorem pyNetlocRaises_http (n p : List Char) (hn : ∀ c ∈ n, netlocStop c = false)
    (hp0 : takeUntil netlocStop p = []) :
    pyNetlocRaises (httpPre ++ (n ++ p)) = invalidNetloc n := by
  have hnet : takeUntil netlocStop (n ++ p) = n := by
    rw [takeUntil_append_of _ hn, hp0, List.append_nil]
  simp only [pyNetlocRaises, pySchemeSplit_http]
  have h1 : (['/', '/'] : List Char).isPrefixOf ('/' :: '/' :: (n ++ p)) = true :=
    isPrefixOf_append_self ['/', '/'] (n ++ p)
  have h2 : ('/' :: '/' :: (n ++ p)).drop 2 = n ++ p := rfl
  rw [if_pos h1, h2, hnet]

theorem pyNetlocRaises_https (n p : List Char) (hn : ∀ c ∈ n, netlocStop c = false)
    (hp0 : takeUntil netlocStop p = []) :
    pyNetlocRaises (httpsPre ++ (n ++ p)) = invalidNetloc n := by
  have hnet : takeUntil netlocStop (n ++ p) = n := by
    rw [takeUntil_append_of _ hn, hp0, List.append_nil]
  simp only [pyNetlocRaises, pySchemeSplit_https]
  have h1 : (['/', '/'] : List Char).isPrefixOf ('/' :: '/' :: (n ++ p)) = true :=
    isPrefixOf_append_self ['/', '/'] (n ++ p)
  have h2 : ('/' :: '/' :: (n ++ p)).drop 2 = n ++ p := rfl
  rw [if_pos h1, h2, hnet]

theorem get_domain_ok_of {l : List Char} (h : pyNetlocRaises l = false) :
    get_domain ⟨l⟩ = Except.ok ⟨lowerAll (removeWww (pyNetloc l))⟩ := by
  unfold get_domain link_domainOf
  dsimp only
  rw [h]
  rfl

/-- C9 counterexample: `get_domain` is not the lowercased host with one leading
`www.` stripped — it keeps the port (netloc, not host), `replace` deletes
`www.` occurrences anywhere (case-sensitively), and an unbalanced-bracket
netloc makes it raise rather than return a host. -/
theorem get_domain_not_claimed_cex :
    get_domain "https://example.com:8080/" = Except.ok "example.com:8080" ∧
    get_domain_claimed "https://example.com:8080/" = "example.com" ∧
    get_domain "https://en.www.example.com/x" = Except.ok "en.example.com" ∧
    get_domain_claimed "https://en.www.example.com/x" = "en.www.example.com" ∧
    get_domain "https://[bad/" = Except.error "Invalid IPv6 URL" ∧
    get_domain "https://example.com:8080/" ≠
      Except.ok (get_domain_claimed "https://example.com:8080/") := by
  refine ⟨by decide, by decide, by decide, by decide, by decide, by decide⟩

/-- C9 (amended): for http(s) URLs with a standard bracket-free authority
delimitation, `get_domain` returns exactly the netloc (userinfo and port
retained) with every occurrence of the substring `www.` deleted
(case-sensitively, before lowercasing), then lowercased; a netloc with
unbalanced square brackets makes it raise `ValueError` instead. -/
theorem get_domain_netloc_replace (n p : List Char)
    (hn : ∀ c ∈ n, netlocStop c = false)
    (hbr : ∀ c ∈ n, (c == '[') = false) (hbrr : ∀ c ∈ n, (c == ']') = false)
    (hp0 : takeUntil netlocStop p = []) :
    get_domain ⟨httpPre ++ n ++ p⟩ = Except.ok ⟨lowerAll (removeWww n)⟩ ∧
    get_domain ⟨httpsPre ++ n ++ p⟩ = Except.ok ⟨lowerAll (removeWww n)⟩ ∧
    get_domain "https://[bad/" = Except.error "Invalid IPv6 URL" := by
  refine ⟨?_, ?_, by decide⟩
  · have hraise : pyNetlocRaises (httpPre ++ n ++ p) = false := by
      rw [List.append_assoc, pyNetlocRaises_http n p hn hp0]
      exact invalidNetloc_eq_false hbr hbrr
    rw [get_domain_ok_of hraise]
    have hval : pyNetloc (httpPre ++ n ++ p) = n := by
      rw [List.append_assoc]
      exact pyNetloc_http n p hn hp0
    rw [hval]
  · have hraise : pyNetlocRaises (httpsPre ++ n ++ p) = false := by
      rw [List.append_assoc, pyNetlocRaises_https n p hn hp0]
      exact invalidNetloc_eq_false hbr hbrr
    rw [get_domain_ok_of hraise]
    have hval : pyNetloc (httpsPre ++ n ++ p) = n := by
      rw [List.append_assoc]
      exact pyNetloc_https n p hn hp0
    rw [hval]

/-- Witness for C9 (amended) at a netloc carrying userinfo, an inner `www.`
and a port. -/
theorem get_domain_netloc_replace_witness :
    get_domain ⟨httpsPre ++ "api.www.shop.com:8080".data ++ "/x".data⟩ =
      Except.ok ⟨lowerAll (removeWww "api.www.shop.com:8080".data)⟩ := by
  exact (get_domain_netloc_replace "api.www.shop.com:8080".data "/x".data
    (by decide) (by decide) (by decide) (by decide)).2.1

/-- C8 counterexample: the code strips ALL trailing slashes
(`path.rstrip('/')`), not a single one as the claim states; and "never raises"
is false — an unbalanced-bracket authority raises `ValueError` out of
`normalize_url`. -/
theorem normalize_trailing_slash_cex :
    normalize_url "https://example.com/a//" = Except.ok "https://example.com/a" ∧
    normalize_url_claimed "https://example.com/a//" = "https://example.com/a/" ∧
    normalize_url "https://example.com/a//" ≠
      Except.ok (normalize_url_claimed "https://example.com/a//") ∧
    normalize_url "https://[bad" = Except.error "Invalid IPv6 URL" := by
  refine ⟨by decide, by decide, by decide, by decide⟩

theorem dropUntil_drop_one (stop : Char → Bool) (l : List Char) :
    (dropUntil stop l).drop 1 = l.drop ((takeUntil stop l).length + 1) := by
  rw [← drop_takeUntil stop l, List.drop_drop]

/-- C8 (amended): `normalize_url` performs exactly: strip surrounding
whitespace and lowercase; prepend `https://` when the string does not start
with `http://` or `https://`; strip any fragment; parse, raising `ValueError`
exactly when the authority has unbalanced square brackets; split the
`;params` of the last path segment off the path; drop a leading `www.`
from the host; strip ALL trailing `/` from the path; reassemble as
`scheme://host+path`, appending `?query` only when the query is non-empty.
An empty host yields an empty host segment rather than aborting, as the
concrete empty-host conjunct shows. -/
theorem normalize_url_eq_spec :
    (∀ s : String, normalize_url s = normalize_url_spec s) ∧
    normalize_url "https://example.com/a;b" = Except.ok "https://example.com/a" ∧
    normalize_url "https://:8080/x" = Except.ok "https:///x" := by
  refine ⟨?_, by decide, by decide⟩
  intro s
  simp only [normalize_url, normalize_urlRaises, normNetloc, normalize_urlChars,
    normalize_url_spec, specParse]
  rw [drop_takeUntil netlocStop, dropUntil_drop_one]

/-! ### Concrete runs matching the specification's worked examples -/

example : normalize_url "https://www.Example.com/about/" =
    Except.ok "https://example.com/about" := by
  decide

example : normalize_url "example.com/about#frag" =
    Except.ok "https://example.com/about" := by decide

example : get_domain "https://www.partner.com/x" = Except.ok "partner.com" := by decide

example :
    _check_single_site "https://example.com"
      [⟨1, "https://example.com", "https://example.com/about", "About Us"⟩]
      (Except.ok [("https://example.com/about", "About Us")]) =
    [⟨1, "https://example.com", "https://example.com/about", "About Us", "ok",
      ["About Us"], none⟩] := by
  decide

example :
    _check_single_site "https://example.com"
      [⟨1, "https://example.com", "https://example.com/about", "About Us"⟩]
      (Except.ok [("https://example.com/about", "Company Info")]) =
    [⟨1, "https://example.com", "https://example.com/about", "About Us",
      "anchor_mismatch", ["Company Info"], none⟩] := by
  decide

example :
    _check_single_domain "blog.example.com" ["partner.com"]
      (Except.ok [("https://www.partner.com/x", "Partner")]) =
    { domain := "blog.example.com", status := "ok", error := none, links_count := 1,
      targets := [("partner.com", ⟨true, ["Partner"]⟩)] } := by
  decide

end LinkTools
